import Mathlib

/-!
Verification development for the demand-letter filling tool
(`streamlit_app.py`).  The Python source is shallowly embedded below:
pure string/arithmetic logic becomes Lean functions over `String`, `Int`
and `Nat`; pdfplumber word records become the `Token` structure; the
dictionaries produced by `_extract_placeholders` become the `Candidate`
structure; the per-candidate mutation performed by
`create_signed_pdf_simple` becomes the `FillAction` inductive.  Python
string operations (`str.lower`, `str.strip`, `in`, `str.split`,
`str.startswith`, slicing) are re-implemented over the character list of
a `String` so that all definitions evaluate inside the kernel.
-/

/-! ## Python string primitives -/

/-- ASCII lower-casing of one character (`str.lower` on the ASCII range,
which covers every string the program compares). -/
def lowerChar (c : Char) : Char :=
  if 'A' ≤ c ∧ c ≤ 'Z' then Char.ofNat (c.toNat + 32) else c

/-- ASCII upper-casing of one character (`str.upper`). -/
def upperChar (c : Char) : Char :=
  if 'a' ≤ c ∧ c ≤ 'z' then Char.ofNat (c.toNat - 32) else c

/-- `s.lower()`. -/
def strLower (s : String) : String := String.mk (s.data.map lowerChar)

/-- `s.strip()`: drop leading and trailing whitespace. -/
def strTrim (s : String) : String :=
  String.mk (((s.data.dropWhile Char.isWhitespace).reverse.dropWhile Char.isWhitespace).reverse)

/-- Does `hay` start with `needle` (character lists)? -/
def startsChars : List Char → List Char → Bool
  | [], _ => true
  | _ :: _, [] => false
  | n :: ns, h :: hs => if n = h then startsChars ns hs else false

/-- Does `needle` occur contiguously inside `hay` (character lists)?
This is Python's `needle in hay` on strings. -/
def subChars (needle hay : List Char) : Bool :=
  if startsChars needle hay then true
  else
    match hay with
    | [] => false
    | _ :: hs => subChars needle hs

/-- Python `needle in hay` for strings. -/
def substrB (needle hay : String) : Bool := subChars needle.data hay.data

/-- Python `s.startswith(p)`. -/
def startsWithStr (p s : String) : Bool := startsChars p.data s.data

/-- Splitter for `str.split()` (no argument): split on every whitespace
character, then drop empty pieces. -/
def splitWsChars : List Char → List (List Char)
  | [] => [[]]
  | c :: cs =>
    let r := splitWsChars cs
    if Char.isWhitespace c then [] :: r
    else
      match r with
      | [] => [[c]]
      | w :: rest => (c :: w) :: rest

/-- Python `s.split()`. -/
def pySplit (s : String) : List String :=
  ((splitWsChars s.data).filter (fun w => w ≠ [])).map String.mk

/-- Python `' '.join(l)`. -/
def joinSpace : List String → String
  | [] => ""
  | [x] => x
  | x :: y :: rest => x ++ " " ++ joinSpace (y :: rest)

/-- Python `s[-2:]`: the last two characters (or the whole string when
shorter). -/
def pyLastTwo (s : String) : String := String.mk ((s.data.reverse.take 2).reverse)

/-! ## Data model

`Token` embeds one pdfplumber word record (`page.extract_words()` entry:
`text`, `x0`, `x1`, `top`, `bottom`, `size`).  Coordinates are embedded
as integers; the source compares them with integer tolerances only.
`Candidate` embeds one placeholder dictionary built by
`_extract_placeholders` (`page`, `text`, `x`, `y`, `width`, `height`,
`font_size`, `placeholder_type`, and the checkbox extras, whose `.get`
defaults `'unknown'` / `''` become field defaults). -/

structure Token where
  text : String
  x0 : Int
  x1 : Int
  top : Int
  bottom : Int
  size : Int
deriving Repr, DecidableEq

structure Candidate where
  page : Nat
  text : String
  x : Int
  y : Int
  width : Int
  height : Int
  font_size : Int
  placeholder_type : String
  checkbox_type : String := "unknown"
  nearby_text : String := ""
  service_method : String := ""
deriving Repr, DecidableEq

/-! ## Document Feature Extractor (`_extract_pdf_features`) -/

def demandKeywords : List String :=
  ["demand", "notice", "letter", "payment", "due", "balance", "amount",
   "outstanding", "past due", "collection", "legal", "action", "attorney",
   "law firm", "settlement", "resolution", "compliance", "breach", "contract"]

def floridaKeywords : List String :=
  ["florida", "fl", "miami", "orlando", "tampa", "jacksonville", "fort lauderdale"]

def georgiaKeywords : List String :=
  ["georgia", "ga", "atlanta", "savannah", "augusta", "columbus", "macon"]

def alabamaKeywords : List String :=
  ["alabama", "al", "birmingham", "montgomery", "mobile", "huntsville", "hoover", "tuscaloosa"]

/-- State indicators contributed by one page's text: each of the three
keyword loops appends its state name once if any keyword of the list is a
substring of the lower-cased page text. -/
def pageStateIndicators (text : String) : List String :=
  (if floridaKeywords.any (fun k => substrB k (strLower text)) then ["florida"] else []) ++
  (if georgiaKeywords.any (fun k => substrB k (strLower text)) then ["georgia"] else []) ++
  (if alabamaKeywords.any (fun k => substrB k (strLower text)) then ["alabama"] else [])

/-- The `state_indicators` list accumulated over all pages; a page whose
extracted text is empty (falsy) is skipped, as in `if text:`. -/
def stateIndicators (texts : List String) : List String :=
  texts.foldl (fun acc t => if t = "" then acc else acc ++ pageStateIndicators t) []

/-! ## Template Matcher (`match_pdf_to_template`) -/

/-- The fields of `_extract_pdf_features`' result that the matcher
consumes. -/
structure Features where
  page_count : Nat
  word_count : Nat
  has_demand_letter_keywords : Bool
  state_indicators : List String
  key_phrases : List String
deriving Repr, DecidableEq

/-- State-matching component: +50 for Florida or Georgia only — the
`if/elif` chain in the source has no Alabama branch. -/
def stateScore (u : Features) (tname : String) : Nat :=
  if "florida" ∈ u.state_indicators ∧ substrB "florida" (strLower tname) = true then 50
  else if "georgia" ∈ u.state_indicators ∧ substrB "georgia" (strLower tname) = true then 50
  else 0

/-- Document-type component: +30 when the uploaded summary has demand
keywords and the template name contains "template". -/
def typeScore (u : Features) (tname : String) : Nat :=
  if u.has_demand_letter_keywords = true ∧ substrB "template" (strLower tname) = true then 30
  else 0

/-- Page-count proximity component. -/
def pageScore (u t : Features) : Nat :=
  let d := ((u.page_count : Int) - (t.page_count : Int)).natAbs
  if d = 0 then 20 else if d = 1 then 10 else if d ≤ 2 then 5 else 0

/-- Word-count proximity component. -/
def wordScore (u t : Features) : Nat :=
  let d := ((u.word_count : Int) - (t.word_count : Int)).natAbs
  if d < 100 then 15 else if d < 500 then 10 else if d < 1000 then 5 else 0

/-- Key-phrase component: 5 points per phrase in the set intersection
(`set(...).intersection(set(...))`), i.e. per distinct common phrase. -/
def phraseScore (u t : Features) : Nat :=
  ((u.key_phrases.dedup).filter (fun p => p ∈ t.key_phrases)).length * 5

/-- Total additive score of one template against the uploaded summary. -/
def templateScore (u t : Features) (tname : String) : Nat :=
  stateScore u tname + typeScore u tname + pageScore u t + wordScore u t + phraseScore u t

/-- `best_match`/`best_score` selection: start from `(None, 0)` and keep
the first template whose score strictly exceeds the running best. -/
def bestTemplateMatch (scored : List (String × Nat)) : Option String × Nat :=
  scored.foldl (fun best p => if best.2 < p.2 then (some p.1, p.2) else best) (none, 0)

/-- `match_pdf_to_template`, with the registry's per-template feature
summaries supplied as data (the source recomputes them from template
files on disk, an external effect). -/
def matchPdfToTemplate (u : Features) (templates : List (String × Features)) :
    Option String × Nat :=
  bestTemplateMatch (templates.map (fun t => (t.1, templateScore u t.2 t.1)))

/-- The caller's acceptance test (`if matched_template and match_score > 20`). -/
def matchAccepted (m : Option String) (score : Nat) : Bool :=
  m.isSome && decide (20 < score)

/-! ## Field Filler: date helpers (`get_ordinal_suffix`, date handling in
`create_signed_pdf_simple`) -/

/-- `get_ordinal_suffix(day)`. -/
def get_ordinal_suffix (day : Nat) : String :=
  if 10 ≤ day % 100 ∧ day % 100 ≤ 20 then "th"
  else if day % 10 = 1 then "st"
  else if day % 10 = 2 then "nd"
  else if day % 10 = 3 then "rd"
  else "th"

/-- `datetime.strftime("%B")`: the full English month name. -/
def monthName (m : Nat) : String :=
  ["January", "February", "March", "April", "May", "June", "July",
   "August", "September", "October", "November", "December"].getD (m - 1) ""

/-- `day_with_suffix = f"{day}{get_ordinal_suffix(day)}"`. -/
def dayTextOf (day : Nat) : String := toString day ++ get_ordinal_suffix day

/-- `year_last_two = str(year)[-2:]`. -/
def yearLastTwo (year : Nat) : String := pyLastTwo (toString year)

/-- `date_text = f"before the {day} day of {month} {year}"`. -/
def dateTextOf (day : Nat) (month : Nat) (year : Nat) : String :=
  "before the " ++ toString day ++ " day of " ++ monthName month ++ " " ++ toString year

/-- The fill values `create_signed_pdf_simple` receives/derives: signer
name, resolved date parts, chosen service method (`None` embeds Python's
`service_method=None` default), signature style. -/
structure FillContext where
  signature_name : String
  day : Nat
  month : Nat
  year : Nat
  service_method : Option String := none
  signature_style : String := "elegant"
deriving Repr, DecidableEq

/-- First character of a string, upper-cased (`s[0].upper()`); total on
the empty string. -/
def firstCharUpper (s : String) : String :=
  match s.data with
  | [] => ""
  | c :: _ => String.mk [upperChar c]

/-- `create_handwritten_signature(name, style)`. -/
def create_handwritten_signature (name : String) (style : String) : String :=
  let parts := pySplit name
  if style = "elegant" then
    if 2 ≤ parts.length then (parts.getD 0 "") ++ " " ++ (parts.getLast?.getD "") else name
  else if style = "stylized" then
    if 2 ≤ parts.length then
      let first_name := parts.getD 0 ""
      let last_name := parts.getLast?.getD ""
      if 4 < last_name.length then
        first_name ++ " " ++ String.mk (last_name.data.take 2) ++
          String.mk (List.replicate (last_name.length - 2) '~')
      else first_name ++ " ~ " ++ last_name
    else
      if 4 < name.length then
        String.mk (name.data.take 3) ++ String.mk (List.replicate (name.length - 3) '~')
      else name ++ "~"
  else if style = "initials" then
    if 2 ≤ parts.length then
      firstCharUpper (parts.getD 0 "") ++ ". " ++ firstCharUpper (parts.getLast?.getD "") ++ "."
    else firstCharUpper name ++ "."
  else if style = "professional" then
    if 2 ≤ parts.length then
      if parts.length = 3 then
        (parts.getD 0 "") ++ " " ++ String.mk ((parts.getD 1 "").data.take 1) ++ ". " ++
          (parts.getD 2 "")
      else (parts.getD 0 "") ++ " " ++ (parts.getLast?.getD "")
    else name
  else name

/-- `determine_date_field_type(page, x, y, word_text)`: classify a generic
`date_blank` by scanning the page's words near the blank. -/
def determine_date_field_type (words : List Token) (x y : Int) : String :=
  let nearby := words.filter (fun w => decide ((w.x0 - x).natAbs < 200 ∧ (w.top - y).natAbs < 50))
  let context := joinSpace (nearby.map (fun w => strLower w.text))
  if substrB "day of" context = true then "day"
  else if substrB "month" context = true ∨
      (["january", "february", "march", "april", "may", "june", "july", "august",
        "september", "october", "november", "december"].any
        (fun m => substrB m context)) = true then "month"
  else if substrB "20" context = true ∨ substrB "year" context = true then "year"
  else "day"

/-! ## Field Filler: per-candidate dispatch (`create_signed_pdf_simple`,
the loop over `page_signatures`) -/

/-- The observable effect of filling one candidate: a text insertion (date
text in the `helv` face or the catch-all signature insertion), a drawn
new checkbox, a mark on an existing checkbox glyph (filled circle for
period glyphs, hand-drawn checkmark otherwise), or nothing. -/
inductive FillAction where
  | insertDate (text : String)
  | insertSignature (text : String)
  | drawNewCheckbox
  | markCircle
  | markCheck
  | noAction
deriving Repr, DecidableEq

/-- `should_check` for `placeholder_type == 'checkbox'` (to-be-drawn
checkboxes): substring comparison of the candidate's stored service
method against the selected one; Python's `if service_method:` treats
`None` and `""` as falsy. -/
def shouldCheckNew (sm : Option String) (candSm : String) : Bool :=
  match sm with
  | none => false
  | some s =>
    if s = "" then false
    else if substrB "personally delivering" candSm = true ∧
        substrB "personally delivering" s = true then true
    else if substrB "posting" candSm = true ∧ substrB "posting" s = true then true
    else false

/-- `should_check` for `placeholder_type == 'existing_checkbox'`: exact
equality against the two fixed service-method strings, then exact tag
equality; anything else (including `unknown` tags) stays unchecked. -/
def shouldCheckExisting (sm : Option String) (ctype : String) : Bool :=
  match sm with
  | none => false
  | some s =>
    if s = "" then false
    else if s = "By personally delivering same upon said tenant" then
      decide (ctype = "personally_delivering")
    else if s = "By posting same at the above described premises in the absence of said tenant" then
      decide (ctype = "posting")
    else false

/-- Did the fill mark a checkbox glyph? -/
def isMarked : FillAction → Bool
  | FillAction.markCircle => true
  | FillAction.markCheck => true
  | _ => false

/-- The per-candidate dispatch of `create_signed_pdf_simple`: the
`if placeholder_type == ...` chain.  `words` is the page's token list
(used only by the `date_blank` context re-scan). -/
def fillCandidate (words : List Token) (ctx : FillContext) (c : Candidate) : FillAction :=
  if c.placeholder_type = "date" then
    FillAction.insertDate
      (if c.text = "Day" then dayTextOf ctx.day
       else if c.text = "Month" then monthName ctx.month
       else if c.text = "--" then yearLastTwo ctx.year
       else dateTextOf ctx.day ctx.month ctx.year)
  else if c.placeholder_type = "day_blank" then
    FillAction.insertDate (dayTextOf ctx.day)
  else if c.placeholder_type = "month_blank" then
    FillAction.insertDate (monthName ctx.month)
  else if c.placeholder_type = "year_blank" then
    FillAction.insertDate (yearLastTwo ctx.year)
  else if c.placeholder_type = "date_blank" then
    FillAction.insertDate
      (if determine_date_field_type words c.x c.y = "day" then dayTextOf ctx.day
       else if determine_date_field_type words c.x c.y = "month" then monthName ctx.month
       else if determine_date_field_type words c.x c.y = "year" then yearLastTwo ctx.year
       else dayTextOf ctx.day)
  else if c.placeholder_type = "checkbox" then
    if shouldCheckNew ctx.service_method c.service_method = true then
      FillAction.drawNewCheckbox
    else FillAction.noAction
  else if c.placeholder_type = "existing_checkbox" then
    if shouldCheckExisting ctx.service_method c.checkbox_type = true then
      if strTrim c.text = "." ∨ substrB "(.)" c.text = true then FillAction.markCircle
      else FillAction.markCheck
    else FillAction.noAction
  else
    FillAction.insertSignature (create_handwritten_signature ctx.signature_name ctx.signature_style)

/-- The two fixed service-method strings offered by the UI. -/
def deliveringMethod : String := "By personally delivering same upon said tenant"

def postingMethod : String :=
  "By posting same at the above described premises in the absence of said tenant"

/-! ## Field Filler: signature font fallback (the `for font_name in
["times-roman", "times", "serif"]` loop) -/

def signatureFontChain : List String := ["times-roman", "times", "serif"]

/-- The font loop of the signature branch: try each face in order (the
external engine's `insert_text` succeeding exactly on the faces `avail`
accepts); if none succeeds, `raise Exception(...)` — embedded as
`Except.error` with the raised message. -/
def trySignatureFonts (avail : String → Bool) : Except String String :=
  match signatureFontChain.find? avail with
  | some f => Except.ok f
  | none => Except.error "Times New Roman font is required but not available"

/-! ## Field Filler: copying candidates onto later empty pages -/

/-- The literal type list of the copy filter in `create_signed_pdf_simple`. -/
def copyTypes : List String :=
  ["signature", "checkbox", "parentheses_personally_delivering", "parentheses_posting"]

/-- `page_signatures` for one page, including the copy-from-page-1
fallback: a later page with no candidates of its own receives page 0's
candidates whose type is in `copyTypes`, re-indexed to this page. -/
def pageCandidatesFor (locs : List Candidate) (page_num : Nat) : List Candidate :=
  let ps := locs.filter (fun l => decide (l.page = page_num))
  if ps.isEmpty = true ∧ 0 < page_num then
    let p0 := locs.filter (fun l => decide (l.page = 0))
    if p0.isEmpty = true then ps
    else
      (p0.filter (fun s => decide (s.placeholder_type ∈ copyTypes))).map
        (fun s => { s with page := page_num })
  else ps

/-! ## Placeholder Classifier (`_extract_placeholders`): per-token rules -/

/-- Common candidate shape used by every append in the scan loop. -/
def mkCand (pn : Nat) (w : Token) (ptype : String) : Candidate :=
  { page := pn, text := strTrim w.text, x := w.x0, y := w.top,
    width := w.x1 - w.x0, height := w.bottom - w.top,
    font_size := w.size, placeholder_type := ptype }

/-- Rule: literal signature words ("signature"/"sign"/"sign here") in the
top section (`top < 345`). -/
def sigWordRule (pn : Nat) (w : Token) : List Candidate :=
  let t := strLower (strTrim w.text)
  if (t = "signature" ∨ t = "sign" ∨ t = "sign here") ∧ w.top < 345 then
    [mkCand pn w "signature"]
  else []

/-- Template-specific vertical bands for long underscore signature lines. -/
def longUnderscoreBand (tmpl : Option String) (top : Int) : Bool :=
  if tmpl = some "Georgia Template" then decide (top < 500 ∨ 600 < top)
  else if tmpl = some "Alabama Template" then
    decide ((500 ≤ top ∧ top ≤ 520) ∨ (600 ≤ top ∧ top ≤ 620))
  else decide (500 < top)

/-- Rule: a token of more than 20 underscore characters inside the
template's signature band. -/
def longUnderscoreRule (tmpl : Option String) (pn : Nat) (w : Token) : List Candidate :=
  let t := strTrim w.text
  if 20 < t.length ∧ (∀ c ∈ t.data, c = '_') ∧ longUnderscoreBand tmpl w.top = true then
    [mkCand pn w "signature"]
  else []

/-- The `nearby_text` of the flexible underscore rule: lower-cased texts
of words on the same line (y within 20) and close by (x within 150),
joined by spaces. -/
def underscoreNearby (ws : List Token) (w : Token) : String :=
  joinSpace
    ((ws.filter (fun o => decide ((o.top - w.top).natAbs < 20 ∧ (o.x0 - w.x0).natAbs < 150))).map
      (fun o => strLower o.text))

/-- Rule: flexible underscore detection (`'___' in word_text` with at
least three underscores), skipping long lines near signature words;
surviving tokens become generic `underscore_blank` candidates. -/
def underscoreBlankRule (pn : Nat) (ws : List Token) (w : Token) : List Candidate :=
  let t := strTrim w.text
  if substrB "___" t = true ∧ 3 ≤ (t.data.filter (fun c => decide (c = '_'))).length then
    if 15 < t.length ∧
        (["signature", "agent", "landlord", "shivaani"].any
          (fun s => substrB s (underscoreNearby ws w))) = true then
      []
    else [mkCand pn w "underscore_blank"]
  else []

/-! ## Placeholder Classifier: existing-checkbox detection -/

/-- For a lone `(`: is there a matching `)` on the same line to the right? -/
def hasMatchingCloseParen (ws : List Token) (w : Token) : Prop :=
  ∃ o ∈ ws, strTrim o.text = ")" ∧ (o.top - w.top).natAbs < 10 ∧ w.x0 < o.x0

instance (ws : List Token) (w : Token) : Decidable (hasMatchingCloseParen ws w) :=
  List.decidableBEx _ ws

/-- For a lone period: is there a parenthesis token nearby (x within 30,
y within 20)? -/
def hasNearbyParen (ws : List Token) (w : Token) : Prop :=
  ∃ o ∈ ws, (strTrim o.text = "(" ∨ strTrim o.text = ")") ∧
    (o.x0 - w.x0).natAbs < 30 ∧ (o.top - w.top).natAbs < 20

instance (ws : List Token) (w : Token) : Decidable (hasNearbyParen ws w) :=
  List.decidableBEx _ ws

/-- Nearby text for a parenthesis checkbox: words on the same line
(y within 10), strictly to the right, within 200 units; each contributes
`text + " "`. -/
def parenNearbyText (ws : List Token) (w : Token) : String :=
  (ws.filter (fun o =>
    decide ((o.top - w.top).natAbs < 10 ∧ w.x0 < o.x0 ∧ o.x0 - w.x0 < 200))).foldl
    (fun acc o => acc ++ o.text ++ " ") ""

/-- Service tag inferred from a parenthesis checkbox's nearby text. -/
def parenServiceType (nearby : String) : String :=
  if substrB "by personally delivering" (strLower nearby) = true then "personally_delivering"
  else if substrB "by posting" (strLower nearby) = true then "posting"
  else "unknown"

/-- Nearby text for a period checkbox: the wide window (y within 100,
x within 800). -/
def periodNearbyText (ws : List Token) (w : Token) : String :=
  (ws.filter (fun o =>
    decide ((o.top - w.top).natAbs < 100 ∧ (o.x0 - w.x0).natAbs < 800))).foldl
    (fun acc o => acc ++ o.text ++ " ") ""

/-- Service tag inferred from a period checkbox's nearby text. -/
def periodServiceType (nearby : String) : String :=
  if (["personally delivering same upon said tenant", "personally delivering",
       "personally delivered"].any (fun p => substrB p (strLower nearby))) = true then
    "personally_delivering"
  else if (["posting same at the above described premises",
            "posting same at the above described", "posting same at",
            "posting"].any (fun p => substrB p (strLower nearby))) = true then
    "posting"
  else "unknown"

/-- An existing-checkbox candidate record (`placeholder_type:
'existing_checkbox'`, plus `checkbox_type` and stripped `nearby_text`). -/
def mkCbCand (pn : Nat) (w : Token) (stype nearby : String) : Candidate :=
  { mkCand pn w "existing_checkbox" with
    checkbox_type := stype, nearby_text := strTrim nearby }

/-- The existing-checkbox section of the token loop:
parenthesis-spelling branch (validity check for a lone `(`, then the
per-page duplicate check, then service classification), or the `elif`
period branch (nearby-paren requirement, duplicate check, wide-window
classification).  Returns the dedup key and the candidate when one is
emitted. -/
def checkboxStep (pn : Nat) (ws : List Token) (w : Token) (dedup : List (Int × Int)) :
    Option ((Int × Int) × Candidate) :=
  let t := strTrim w.text
  if t = "( )" ∨ t = "()" ∨ t = "(.)" ∨ t = "(" then
    if t = "(" ∧ ¬ hasMatchingCloseParen ws w then none
    else if (w.x0, w.top) ∈ dedup then none
    else
      some ((w.x0, w.top),
        mkCbCand pn w (parenServiceType (parenNearbyText ws w)) (parenNearbyText ws w))
  else if t = "." then
    if hasNearbyParen ws w then
      if (w.x0, w.top) ∈ dedup then none
      else
        some ((w.x0, w.top),
          mkCbCand pn w (periodServiceType (periodNearbyText ws w)) (periodNearbyText ws w))
    else none
  else none

/-- A token that the checkbox section accepts (ignoring deduplication):
one of the complete parenthesis spellings, a lone `(` with a matching
`)`, or a lone period with a parenthesis nearby. -/
def eligibleCheckbox (ws : List Token) (w : Token) : Prop :=
  (strTrim w.text = "( )" ∨ strTrim w.text = "()" ∨ strTrim w.text = "(.)") ∨
  (strTrim w.text = "(" ∧ hasMatchingCloseParen ws w) ∨
  (strTrim w.text = "." ∧ hasNearbyParen ws w)

instance (ws : List Token) (w : Token) : Decidable (eligibleCheckbox ws w) := by
  unfold eligibleCheckbox; exact inferInstance

/-! ## Placeholder Classifier: the page scan -/

structure ScanState where
  dedup : List (Int × Int)
  acc : List Candidate
deriving Repr, DecidableEq

/-- One iteration of the token loop: the three independent text rules
append their candidates, then the checkbox section may append one more
and record its dedup key. -/
def scanWord (tmpl : Option String) (pn : Nat) (ws : List Token) (st : ScanState) (w : Token) :
    ScanState :=
  let acc1 := st.acc ++ sigWordRule pn w ++ longUnderscoreRule tmpl pn w ++
    underscoreBlankRule pn ws w
  match checkboxStep pn ws w st.dedup with
  | some kc => { dedup := kc.1 :: st.dedup, acc := acc1 ++ [kc.2] }
  | none => { dedup := st.dedup, acc := acc1 }

/-- Scan one page: fold the token loop over the page's words starting
from an empty candidate list and an empty per-page dedup set. -/
def scanPage (tmpl : Option String) (pn : Nat) (ws : List Token) : List Candidate :=
  (ws.foldl (scanWord tmpl pn ws) ⟨[], []⟩).acc

/-- Scan all pages (`for page_num, page in enumerate(pdf.pages)`),
starting at page index `i`. -/
def scanPagesFrom (tmpl : Option String) (i : Nat) : List (List Token) → List Candidate
  | [] => []
  | ws :: rest => scanPage tmpl i ws ++ scanPagesFrom tmpl (i + 1) rest

def scanDocument (tmpl : Option String) (pages : List (List Token)) : List Candidate :=
  scanPagesFrom tmpl 0 pages

/-! ## Placeholder Classifier: post-processing of `underscore_blank`
candidates (the tail of `_extract_placeholders`) -/

/-- The `(x, y)` position of a candidate. -/
def keyOf (c : Candidate) : Int × Int := (c.x, c.y)

/-- `template_name and sub in template_name.lower()` (Python truthiness of
the optional template name). -/
def tmplHas (tmpl : Option String) (sub : String) : Bool :=
  match tmpl with
  | none => false
  | some s => if s = "" then false else substrB sub (strLower s)

/-- The `underscore_blank` entries of the scanned locations. -/
def underscoreBlanksOf (l : List Candidate) : List Candidate :=
  l.filter (fun c => decide (c.placeholder_type = "underscore_blank"))

/-- `underscore_blanks.sort(key=lambda x: x['y'])`: Python's sort is
stable, so any stable sort by `y` (here insertion sort) computes the same
list. -/
def sortedBlanksOf (l : List Candidate) : List Candidate :=
  List.insertionSort (fun a b => a.y ≤ b.y) (underscoreBlanksOf l)

/-- Florida's content-based assignment for the `i`-th sorted blank. -/
def floridaAssign (i : Nat) (text : String) : String :=
  let t := strLower text
  if substrB "day" t = true then "day_blank"
  else if substrB "of" t = true ∧ substrB "," t = true then "month_blank"
  else if substrB "," t = true ∧ 10 < t.length then "month_blank"
  else if startsWithStr "20" t = true then "year_blank"
  else if 25 < t.length then "signature"
  else ["day_blank", "month_blank", "year_blank"].getD (i % 3) ""

/-- Number of pattern slots for the non-Florida templates (Alabama 5,
Georgia/default 3). -/
def expectedBlankCount (tmpl : Option String) : Nat :=
  if tmplHas tmpl "alabama" = true then 5 else 3

/-- The positional type pattern for the non-Florida templates. -/
def blankPattern (tmpl : Option String) : List String :=
  if tmplHas tmpl "alabama" = true then
    ["signature", "day_blank", "month_blank", "year_blank", "signature"]
  else ["day_blank", "month_blank", "year_blank"]

/-- The type assigned to the `i`-th sorted blank, or `none` when the loop
`continue`s (an excess blank beyond the template's pattern). -/
def assignedTypeFor (tmpl : Option String) (i : Nat) (b : Candidate) : Option String :=
  if tmplHas tmpl "florida" = true then some (floridaAssign i b.text)
  else if tmplHas tmpl "alabama" = true then
    if i < 5 then some ((blankPattern tmpl).getD i "") else none
  else
    if i < 3 then some ((blankPattern tmpl).getD i "") else none

/-- `for i, blank in enumerate(underscore_blanks)`: the sequence of
`(position key, assigned type)` updates the loop performs, skipping the
`continue`d indices. -/
def blankAssignmentsFrom (tmpl : Option String) (i : Nat) :
    List Candidate → List ((Int × Int) × String)
  | [] => []
  | b :: rest =>
    match assignedTypeFor tmpl i b with
    | some t => (keyOf b, t) :: blankAssignmentsFrom tmpl (i + 1) rest
    | none => blankAssignmentsFrom tmpl (i + 1) rest

def blankAssignments (tmpl : Option String) (sorted : List Candidate) :
    List ((Int × Int) × String) :=
  blankAssignmentsFrom tmpl 0 sorted

/-- One update: find the first location still typed `underscore_blank` at
the assignment's position and give it the assigned type (the inner
`for loc in signature_locations` search with `break`). -/
def assignBlank (k : Int × Int) (t : String) : List Candidate → List Candidate
  | [] => []
  | c :: rest =>
    if c.placeholder_type = "underscore_blank" ∧ c.x = k.1 ∧ c.y = k.2 then
      { c with placeholder_type := t } :: rest
    else c :: assignBlank k t rest

/-- The post-processing block: when any `underscore_blank` was found,
sort the blanks top-to-bottom and apply the assignments in order. -/
def postProcessBlanks (tmpl : Option String) (locs : List Candidate) : List Candidate :=
  if (underscoreBlanksOf locs).isEmpty = true then locs
  else
    (blankAssignments tmpl (sortedBlanksOf locs)).foldl
      (fun l a => assignBlank a.1 a.2 l) locs

/-- `_extract_placeholders`: scan every page, then post-process the
underscore blanks. -/
def extractPlaceholders (tmpl : Option String) (pages : List (List Token)) : List Candidate :=
  postProcessBlanks tmpl (scanDocument tmpl pages)

/-- Existing-checkbox candidates of a page at one position (used to state
the deduplication invariant). -/
def cbCountAt (l : List Candidate) (pn : Nat) (px py : Int) : Nat :=
  (l.filter (fun c =>
    decide (c.placeholder_type = "existing_checkbox" ∧ c.page = pn ∧ c.x = px ∧ c.y = py))).length

/-! ## Claim C10: ordinal suffixes -/

/-- C10: for every day number `d` with `10 ≤ d % 100 ≤ 20` the ordinal
suffix is `"th"` (so 11, 12, 13 render as 11th/12th/13th), and otherwise
the suffix is `"st"`/`"nd"`/`"rd"` exactly when `d % 10` is 1/2/3 and
`"th"` in every other case. -/
theorem C10_ordinal_suffix (d : Nat) :
    (10 ≤ d % 100 ∧ d % 100 ≤ 20 → get_ordinal_suffix d = "th") ∧
    (¬(10 ≤ d % 100 ∧ d % 100 ≤ 20) →
      (get_ordinal_suffix d = "st" ↔ d % 10 = 1) ∧
      (get_ordinal_suffix d = "nd" ↔ d % 10 = 2) ∧
      (get_ordinal_suffix d = "rd" ↔ d % 10 = 3) ∧
      (d % 10 ≠ 1 → d % 10 ≠ 2 → d % 10 ≠ 3 → get_ordinal_suffix d = "th")) := by
  unfold get_ordinal_suffix
  constructor
  · intro h
    rw [if_pos h]
  · intro h
    rw [if_neg h]
    have h10 : d % 10 = 0 ∨ d % 10 = 1 ∨ d % 10 = 2 ∨ d % 10 = 3 ∨ d % 10 = 4 ∨
        d % 10 = 5 ∨ d % 10 = 6 ∨ d % 10 = 7 ∨ d % 10 = 8 ∨ d % 10 = 9 := by omega
    rcases h10 with h1 | h1 | h1 | h1 | h1 | h1 | h1 | h1 | h1 | h1 <;> simp [h1]

/-- C10 witness: days 11 and 21 evaluated through the theorem. -/
theorem C10_ordinal_suffix_witness :
    get_ordinal_suffix 11 = "th" ∧ get_ordinal_suffix 21 = "st" := by
  constructor
  · exact (C10_ordinal_suffix 11).1 (by decide)
  · exact ((C10_ordinal_suffix 21).2 (by decide)).1.mpr (by decide)

/-! ## Claim C7: date round-trip through the Field Filler -/

def c7MarchCtx : FillContext :=
  { signature_name := "Jane Q. Public", day := 3, month := 3, year := 2024 }

def c7NovCtx : FillContext :=
  { signature_name := "Jane Q. Public", day := 21, month := 11, year := 2024 }

def c7DayCand : Candidate :=
  { page := 0, text := "_____day", x := 100, y := 200, width := 40, height := 10,
    font_size := 12, placeholder_type := "day_blank" }

def c7MonthCand : Candidate :=
  { page := 0, text := "of__________,", x := 100, y := 220, width := 40, height := 10,
    font_size := 12, placeholder_type := "month_blank" }

def c7YearCand : Candidate :=
  { page := 0, text := "20______.", x := 100, y := 240, width := 40, height := 10,
    font_size := 12, placeholder_type := "year_blank" }

/-- C7: with fill date 2024-03-03 a `day_blank` receives "3rd", a
`month_blank` "March" and a `year_blank` "24"; with fill date 2024-11-21
a `day_blank` receives "21st". -/
theorem C7_date_round_trip :
    fillCandidate [] c7MarchCtx c7DayCand = FillAction.insertDate "3rd" ∧
    fillCandidate [] c7MarchCtx c7MonthCand = FillAction.insertDate "March" ∧
    fillCandidate [] c7MarchCtx c7YearCand = FillAction.insertDate "24" ∧
    fillCandidate [] c7NovCtx c7DayCand = FillAction.insertDate "21st" := by
  decide

/-! ## Claim C9: jurisdiction detection is raw substring containment -/

/-- Accumulation lemma for the state-indicator fold: anything already in
the accumulator stays, and any non-empty page text contributes its page
indicators. -/
theorem stateIndicators_foldl_mem (s : String) (texts : List String) :
    ∀ acc : List String,
      (s ∈ acc ∨ ∃ t, t ∈ texts ∧ t ≠ "" ∧ s ∈ pageStateIndicators t) →
      s ∈ texts.foldl (fun a t => if t = "" then a else a ++ pageStateIndicators t) acc := by
  induction texts with
  | nil =>
    intro acc h
    rcases h with h | ⟨t, ht, _, _⟩
    · simpa using h
    · exact absurd ht (List.not_mem_nil t)
  | cons t' rest ih =>
    intro acc h
    simp only [List.foldl_cons]
    rcases h with h | ⟨t, ht, hne, hpage⟩
    · refine ih _ (Or.inl ?_)
      by_cases h0 : t' = ""
      · rw [if_pos h0]; exact h
      · rw [if_neg h0]; exact List.mem_append_left _ h
    · rcases List.mem_cons.mp ht with rfl | htrest
      · refine ih _ (Or.inl ?_)
        rw [if_neg hne]
        exact List.mem_append_right _ hpage
      · exact ih _ (Or.inr ⟨t, htrest, hne, hpage⟩)

/-- A page text containing "fl" / "ga" / "al" (lower-cased) contributes
the corresponding state to its page indicators, because "fl", "ga" and
"al" are themselves entries of the per-state keyword lists. -/
theorem pageStateIndicators_of_sub (t : String) :
    (substrB "fl" (strLower t) = true → "florida" ∈ pageStateIndicators t) ∧
    (substrB "ga" (strLower t) = true → "georgia" ∈ pageStateIndicators t) ∧
    (substrB "al" (strLower t) = true → "alabama" ∈ pageStateIndicators t) := by
  unfold pageStateIndicators
  refine ⟨fun h => ?_, fun h => ?_, fun h => ?_⟩
  · have hany : floridaKeywords.any (fun k => substrB k (strLower t)) = true :=
      List.any_eq_true.mpr ⟨"fl", by simp [floridaKeywords], h⟩
    rw [if_pos hany]
    exact List.mem_append_left _ (List.mem_append_left _ (List.mem_singleton.mpr rfl))
  · have hany : georgiaKeywords.any (fun k => substrB k (strLower t)) = true :=
      List.any_eq_true.mpr ⟨"ga", by simp [georgiaKeywords], h⟩
    refine List.mem_append_left _ (List.mem_append_right _ ?_)
    rw [if_pos hany]
    exact List.mem_singleton.mpr rfl
  · have hany : alabamaKeywords.any (fun k => substrB k (strLower t)) = true :=
      List.any_eq_true.mpr ⟨"al", by simp [alabamaKeywords], h⟩
    refine List.mem_append_right _ ?_
    rw [if_pos hany]
    exact List.mem_singleton.mpr rfl

/-- C9: jurisdiction detection is substring containment over the
lower-cased page text.  Any page whose text contains "al" anywhere (even
inside words such as "legal" or "shall") records `alabama` in the
state-indicator list, any page containing "fl" records `florida`, and any
page containing "ga" records `georgia` — no word boundaries are
required. -/
theorem C9_state_substring_detection (texts : List String) (t : String) (ht : t ∈ texts) :
    (substrB "fl" (strLower t) = true → "florida" ∈ stateIndicators texts) ∧
    (substrB "ga" (strLower t) = true → "georgia" ∈ stateIndicators texts) ∧
    (substrB "al" (strLower t) = true → "alabama" ∈ stateIndicators texts) := by
  have hne : ∀ needle : String, substrB needle (strLower t) = true → needle ≠ "" → t ≠ "" := by
    intro needle h hn ht0
    subst ht0
    revert h
    cases needle with
    | mk data =>
      cases data with
      | nil => intro _; exact hn rfl
      | cons c cs => intro h; simp [substrB, subChars, startsChars, strLower] at h
  refine ⟨fun h => ?_, fun h => ?_, fun h => ?_⟩
  · exact stateIndicators_foldl_mem _ _ _
      (Or.inr ⟨t, ht, hne "fl" h (by decide), (pageStateIndicators_of_sub t).1 h⟩)
  · exact stateIndicators_foldl_mem _ _ _
      (Or.inr ⟨t, ht, hne "ga" h (by decide), (pageStateIndicators_of_sub t).2.1 h⟩)
  · exact stateIndicators_foldl_mem _ _ _
      (Or.inr ⟨t, ht, hne "al" h (by decide), (pageStateIndicators_of_sub t).2.2 h⟩)

/-- C9 witness: the single page text "legal conflict" — which never names
a state — records all three states. -/
theorem C9_state_substring_detection_witness :
    "florida" ∈ stateIndicators ["legal conflict"] ∧
    "georgia" ∈ stateIndicators ["legal conflict"] ∧
    "alabama" ∈ stateIndicators ["legal conflict"] := by
  have h := C9_state_substring_detection ["legal conflict"] "legal conflict"
    (List.mem_singleton.mpr rfl)
  exact ⟨h.1 (by decide), h.2.1 (by decide), h.2.2 (by decide)⟩

/-! ## Claim C4: the +50 jurisdiction bonus -/

def c4Uploaded : Features :=
  { page_count := 1, word_count := 0, has_demand_letter_keywords := false,
    state_indicators := ["alabama"], key_phrases := [] }

def c4FlUploaded : Features :=
  { page_count := 1, word_count := 0, has_demand_letter_keywords := false,
    state_indicators := ["florida"], key_phrases := [] }

def c4AlabamaTemplate : Features :=
  { page_count := 9, word_count := 5000, has_demand_letter_keywords := true,
    state_indicators := ["alabama"], key_phrases := [] }

/-- C4 counterexample: an uploaded summary whose detected jurisdiction
set is `{alabama}` against the registered template named
"Alabama Template".  The jurisdiction sets intersect (matched by
substring of the display name), yet the total score is 0 — no +50 is
added, because the scoring `if/elif` chain only has Florida and Georgia
branches.  Were the claim true the score would be at least 50. -/
theorem C4_jurisdiction_counterexample :
    "alabama" ∈ c4Uploaded.state_indicators ∧
    substrB "alabama" (strLower "Alabama Template") = true ∧
    templateScore c4Uploaded c4AlabamaTemplate "Alabama Template" = 0 := by
  decide

/-- C4 amended: the +50 jurisdiction bonus is applied for the Florida and
Georgia templates only — whenever the uploaded summary's indicators
contain "florida" (resp. "georgia") and the template's display name
contains that state — and the state component is 0 in every other case,
so an Alabama indicator never earns the bonus. -/
theorem C4_jurisdiction_bonus_amended (u t : Features) (tname : String) :
    ("florida" ∈ u.state_indicators → substrB "florida" (strLower tname) = true →
      50 ≤ templateScore u t tname) ∧
    ("georgia" ∈ u.state_indicators → substrB "georgia" (strLower tname) = true →
      50 ≤ templateScore u t tname) ∧
    (¬("florida" ∈ u.state_indicators ∧ substrB "florida" (strLower tname) = true) →
     ¬("georgia" ∈ u.state_indicators ∧ substrB "georgia" (strLower tname) = true) →
      stateScore u tname = 0) := by
  refine ⟨fun h1 h2 => ?_, fun h1 h2 => ?_, fun h1 h2 => ?_⟩
  · have hs : stateScore u tname = 50 := by
      unfold stateScore
      rw [if_pos ⟨h1, h2⟩]
    unfold templateScore
    omega
  · have hs : stateScore u tname = 50 := by
      unfold stateScore
      by_cases hf : "florida" ∈ u.state_indicators ∧ substrB "florida" (strLower tname) = true
      · rw [if_pos hf]
      · rw [if_neg hf, if_pos ⟨h1, h2⟩]
    unfold templateScore
    omega
  · unfold stateScore
    rw [if_neg h1, if_neg h2]

/-- C4 amended witness: a Florida indicator against "Florida Template"
earns the bonus; an Alabama indicator against "Alabama Template" earns a
zero state component. -/
theorem C4_jurisdiction_bonus_amended_witness :
    50 ≤ templateScore c4FlUploaded c4AlabamaTemplate "Florida Template" ∧
    stateScore c4Uploaded "Alabama Template" = 0 :=
  ⟨(C4_jurisdiction_bonus_amended c4FlUploaded c4AlabamaTemplate "Florida Template").1
      (by decide) (by decide),
   (C4_jurisdiction_bonus_amended c4Uploaded c4AlabamaTemplate "Alabama Template").2.2
      (by decide) (by decide)⟩

/-! ## Claim C6: the confidence floor -/

/-- The running best of the matcher fold never exceeds the bound when all
scores and the starting value are at or below it. -/
theorem bestTemplateMatch_bound (bound : Nat) :
    ∀ (scored : List (String × Nat)) (init : Option String × Nat),
      init.2 ≤ bound → (∀ p ∈ scored, p.2 ≤ bound) →
      (scored.foldl (fun best p => if best.2 < p.2 then (some p.1, p.2) else best) init).2 ≤
        bound := by
  intro scored
  induction scored with
  | nil => intro init hinit _; simpa using hinit
  | cons p rest ih =>
    intro init hinit h
    simp only [List.foldl_cons]
    refine ih _ ?_ (fun q hq => h q (List.mem_cons_of_mem _ hq))
    by_cases hlt : init.2 < p.2
    · rw [if_pos hlt]; exact h p (List.mem_cons_self _ _)
    · rw [if_neg hlt]; exact hinit

/-- C6: when every registered template scores at most 20, the matcher
pipeline rejects the document (`matched_template and match_score > 20`
fails), and in general a match is accepted only when its score strictly
exceeds the floor of 20. -/
theorem C6_confidence_floor (u : Features) (templates : List (String × Features))
    (hlow : ∀ t ∈ templates, templateScore u t.2 t.1 ≤ 20) :
    matchAccepted (matchPdfToTemplate u templates).1 (matchPdfToTemplate u templates).2 = false ∧
    (∀ (m : Option String) (s : Nat), matchAccepted m s = true → 20 < s) := by
  constructor
  · have hle : (matchPdfToTemplate u templates).2 ≤ 20 := by
      unfold matchPdfToTemplate bestTemplateMatch
      refine bestTemplateMatch_bound 20 _ _ (by simp) ?_
      intro p hp
      rcases List.mem_map.mp hp with ⟨t, ht, rfl⟩
      exact hlow t ht
    unfold matchAccepted
    rw [decide_eq_false (by omega : ¬ 20 < (matchPdfToTemplate u templates).2)]
    exact Bool.and_false _
  · intro m s h
    unfold matchAccepted at h
    have h2 : decide (20 < s) = true := (Bool.and_eq_true _ _ |>.mp h).2
    exact of_decide_eq_true h2

/-- C6 witness: a document scoring 0 against the single registered
template is reported unmatched. -/
theorem C6_confidence_floor_witness :
    matchAccepted (matchPdfToTemplate c4Uploaded [("Alabama Template", c4AlabamaTemplate)]).1
      (matchPdfToTemplate c4Uploaded [("Alabama Template", c4AlabamaTemplate)]).2 = false ∧
    20 < 21 :=
  ⟨(C6_confidence_floor c4Uploaded [("Alabama Template", c4AlabamaTemplate)] (by decide)).1,
   (C6_confidence_floor c4Uploaded [("Alabama Template", c4AlabamaTemplate)] (by decide)).2
      (some "Alabama Template") 21 (by decide)⟩

/-! ## Claim C3: the signature font fallback chain -/

/-- C3 counterexample: in an environment where no face of the chain can
be used (the styling resources are unavailable), the signature branch
does not complete with some face — it raises, and the failure is
surfaced (the fill aborts). -/
theorem C3_font_chain_counterexample :
    trySignatureFonts (fun _ => false) =
      Except.error "Times New Roman font is required but not available" := by
  rfl

/-- C3 amended: the filler falls back through the ordered chain
`["times-roman", "times", "serif"]` and completes with the first usable
face; but the chain does not end in a guaranteed-available plain face —
when every face of the chain is unusable the branch raises
"Times New Roman font is required but not available", so the
styling-resource failure is surfaced rather than always recovered. -/
theorem C3_font_fallback_amended (avail : String → Bool) :
    ((avail "times-roman" = true ∨ avail "times" = true ∨ avail "serif" = true) →
      ∃ f, f ∈ signatureFontChain ∧ avail f = true ∧
        trySignatureFonts avail = Except.ok f) ∧
    (avail "times-roman" = false → avail "times" = false → avail "serif" = false →
      trySignatureFonts avail =
        Except.error "Times New Roman font is required but not available") := by
  constructor
  · intro h
    unfold trySignatureFonts signatureFontChain
    cases h1 : avail "times-roman" with
    | true =>
      refine ⟨"times-roman", by simp [signatureFontChain], h1, ?_⟩
      simp [List.find?, h1]
    | false =>
      cases h2 : avail "times" with
      | true =>
        refine ⟨"times", by simp [signatureFontChain], h2, ?_⟩
        simp [List.find?, h1, h2]
      | false =>
        cases h3 : avail "serif" with
        | true =>
          refine ⟨"serif", by simp [signatureFontChain], h3, ?_⟩
          simp [List.find?, h1, h2, h3]
        | false =>
          rcases h with h | h | h
          · rw [h1] at h; cases h
          · rw [h2] at h; cases h
          · rw [h3] at h; cases h
  · intro h1 h2 h3
    unfold trySignatureFonts signatureFontChain
    simp [List.find?, h1, h2, h3]

/-- C3 amended witness: with only the last face of the chain usable, the
fill completes with "serif". -/
theorem C3_font_fallback_amended_witness :
    trySignatureFonts (fun f => decide (f = "serif")) = Except.ok "serif" := by
  have h := (C3_font_fallback_amended (fun f => decide (f = "serif"))).1
    (Or.inr (Or.inr (by decide)))
  rcases h with ⟨f, _, hav, heq⟩
  have hf : f = "serif" := of_decide_eq_true hav
  rw [hf] at heq
  exact heq

/-! ## Claim C5: copying candidates onto later empty pages -/

def c5Sig : Candidate :=
  { page := 0, text := "SIGN HERE", x := 10, y := 300, width := 50, height := 10,
    font_size := 12, placeholder_type := "signature" }

def c5Cb : Candidate :=
  { page := 0, text := "( )", x := 20, y := 400, width := 10, height := 10,
    font_size := 12, placeholder_type := "existing_checkbox", checkbox_type := "posting",
    nearby_text := "By posting" }

/-- C5 counterexample: page 0 carries one signature candidate and one
`existing_checkbox` candidate; page 1 is empty.  The copy filter only
admits the literal types `signature`/`checkbox`/`parentheses_*`, so page
1 receives the signature only — the existing-checkbox candidate is NOT
copied, contradicting the claim that existing-checkbox candidates are
copied along. -/
theorem C5_copy_counterexample :
    pageCandidatesFor [c5Sig, c5Cb] 1 = [{ c5Sig with page := 1 }] ∧
    ((pageCandidatesFor [c5Sig, c5Cb] 1).filter
      (fun c => decide (c.placeholder_type = "existing_checkbox"))).length = 0 := by
  decide

/-- C5 amended: when a later page (index > 0) yields zero candidates and
page 0 has some, exactly the page-0 candidates whose type is one of the
literal strings `signature`, `checkbox`, `parentheses_personally_delivering`,
`parentheses_posting` are copied with the page index rewritten; since the
classifier emits checkboxes as `existing_checkbox`, no checkbox (and no
day/month/year/date candidate) is ever copied, so the later page receives
signatures only. -/
theorem C5_copy_amended (locs : List Candidate) (pn : Nat) (hpn : 0 < pn)
    (hempty : locs.filter (fun l => decide (l.page = pn)) = []) :
    (∀ c0 ∈ locs, c0.page = 0 → c0.placeholder_type ∈ copyTypes →
      { c0 with page := pn } ∈ pageCandidatesFor locs pn) ∧
    (∀ c ∈ pageCandidatesFor locs pn,
      c.page = pn ∧ c.placeholder_type ∈ copyTypes ∧
      c.placeholder_type ≠ "existing_checkbox" ∧
      c.placeholder_type ≠ "day_blank" ∧ c.placeholder_type ≠ "month_blank" ∧
      c.placeholder_type ≠ "year_blank" ∧ c.placeholder_type ≠ "date_blank" ∧
      c.placeholder_type ≠ "date" ∧
      ∃ c0 ∈ locs, c0.page = 0 ∧ c = { c0 with page := pn }) := by
  have hps : locs.filter (fun l => decide (l.page = pn)) = [] := hempty
  unfold pageCandidatesFor
  rw [hps]
  rw [if_pos ⟨rfl, hpn⟩]
  by_cases hp0 : (locs.filter (fun l => decide (l.page = 0))).isEmpty = true
  · rw [if_pos hp0]
    have hp0nil : locs.filter (fun l => decide (l.page = 0)) = [] :=
      List.isEmpty_iff.mp hp0
    constructor
    · intro c0 hc0 hpage _
      exfalso
      have : c0 ∈ locs.filter (fun l => decide (l.page = 0)) :=
        List.mem_filter.mpr ⟨hc0, by simp [hpage]⟩
      rw [hp0nil] at this
      exact absurd this (List.not_mem_nil c0)
    · intro c hc
      exact absurd hc (List.not_mem_nil c)
  · rw [if_neg hp0]
    constructor
    · intro c0 hc0 hpage htype
      refine List.mem_map.mpr ⟨c0, ?_, rfl⟩
      refine List.mem_filter.mpr ⟨List.mem_filter.mpr ⟨hc0, by simp [hpage]⟩, by simp [htype]⟩
    · intro c hc
      rcases List.mem_map.mp hc with ⟨s, hs, rfl⟩
      rcases List.mem_filter.mp hs with ⟨hs0, hstype⟩
      rcases List.mem_filter.mp hs0 with ⟨hsl, hspage⟩
      have hspage0 : s.page = 0 := of_decide_eq_true hspage
      have hstypes : s.placeholder_type ∈ copyTypes := of_decide_eq_true hstype
      have hproj : ({ s with page := pn } : Candidate).placeholder_type =
          s.placeholder_type := rfl
      have hd : s.placeholder_type = "signature" ∨ s.placeholder_type = "checkbox" ∨
          s.placeholder_type = "parentheses_personally_delivering" ∨
          s.placeholder_type = "parentheses_posting" := by
        simpa [copyTypes] using hstypes
      refine ⟨rfl, ?_, ?_, ?_, ?_, ?_, ?_, ?_, s, hsl, hspage0, rfl⟩
      · rw [hproj]; exact hstypes
      all_goals
        rw [hproj]
        rcases hd with h | h | h | h <;> rw [h] <;> decide

/-- C5 amended witness: the concrete two-candidate document, evaluated
through the amended theorem. -/
theorem C5_copy_amended_witness :
    ({ c5Sig with page := 1 } : Candidate) ∈ pageCandidatesFor [c5Sig, c5Cb] 1 :=
  (C5_copy_amended [c5Sig, c5Cb] 1 (by decide) (by decide)).1 c5Sig (by simp) rfl (by decide)

/-! ## Claim C1: checkbox exclusivity in the Field Filler -/

/-- The `existing_checkbox` branch of the fill dispatch, isolated. -/
theorem fillCandidate_existing_checkbox (ws : List Token) (ctx : FillContext) (c : Candidate)
    (hc : c.placeholder_type = "existing_checkbox") :
    fillCandidate ws ctx c =
      if shouldCheckExisting ctx.service_method c.checkbox_type = true then
        if strTrim c.text = "." ∨ substrB "(.)" c.text = true then FillAction.markCircle
        else FillAction.markCheck
      else FillAction.noAction := by
  unfold fillCandidate
  rw [hc]
  simp

/-- Selecting the posting method checks a candidate exactly when its tag
is `posting`. -/
theorem shouldCheckExisting_posting (ct : String) :
    shouldCheckExisting (some postingMethod) ct = decide (ct = "posting") := by
  unfold shouldCheckExisting postingMethod
  simp

/-- Selecting the personally-delivering method checks a candidate exactly
when its tag is `personally_delivering`. -/
theorem shouldCheckExisting_delivering (ct : String) :
    shouldCheckExisting (some deliveringMethod) ct = decide (ct = "personally_delivering") := by
  unfold shouldCheckExisting deliveringMethod
  simp

/-- An `unknown`-tagged candidate is never checked, whatever the
selection. -/
theorem shouldCheckExisting_unknown (sm : Option String) :
    shouldCheckExisting sm "unknown" = false := by
  cases sm with
  | none => rfl
  | some s =>
    show (if s = "" then false
      else if s = "By personally delivering same upon said tenant" then
        decide (("unknown" : String) = "personally_delivering")
      else if s =
          "By posting same at the above described premises in the absence of said tenant" then
        decide (("unknown" : String) = "posting")
      else false) = false
    by_cases h1 : s = ""
    · rw [if_pos h1]
    · rw [if_neg h1]
      by_cases h2 : s = "By personally delivering same upon said tenant"
      · rw [if_pos h2]; decide
      · rw [if_neg h2]
        by_cases h3 :
            s = "By posting same at the above described premises in the absence of said tenant"
        · rw [if_pos h3]; decide
        · rw [if_neg h3]

/-- C1: on a page carrying both a `posting`-tagged and a
`personally_delivering`-tagged existing-checkbox candidate, filling with
the posting service-method string marks exactly the posting candidate and
leaves the other unmarked, and vice versa; an `unknown`-tagged candidate
is never marked for any selection. -/
theorem C1_checkbox_exclusivity (cands : List Candidate) (a b : Candidate)
    (ws : List Token) (ctx : FillContext)
    (ha : a ∈ cands) (hb : b ∈ cands)
    (hat : a.placeholder_type = "existing_checkbox")
    (hbt : b.placeholder_type = "existing_checkbox")
    (hac : a.checkbox_type = "posting")
    (hbc : b.checkbox_type = "personally_delivering") :
    isMarked (fillCandidate ws { ctx with service_method := some postingMethod } a) = true ∧
    isMarked (fillCandidate ws { ctx with service_method := some postingMethod } b) = false ∧
    isMarked (fillCandidate ws { ctx with service_method := some deliveringMethod } b) = true ∧
    isMarked (fillCandidate ws { ctx with service_method := some deliveringMethod } a) = false ∧
    (∀ c ∈ cands, c.placeholder_type = "existing_checkbox" → c.checkbox_type = "unknown" →
      ∀ sm : Option String,
        isMarked (fillCandidate ws { ctx with service_method := sm } c) = false) := by
  have key : ∀ (c : Candidate) (sm : Option String),
      c.placeholder_type = "existing_checkbox" →
      fillCandidate ws { ctx with service_method := sm } c =
        if shouldCheckExisting sm c.checkbox_type = true then
          if strTrim c.text = "." ∨ substrB "(.)" c.text = true then FillAction.markCircle
          else FillAction.markCheck
        else FillAction.noAction := by
    intro c sm hc
    exact fillCandidate_existing_checkbox ws _ c hc
  refine ⟨?_, ?_, ?_, ?_, ?_⟩
  · rw [key a _ hat, shouldCheckExisting_posting, hac]
    rw [if_pos (by decide : (decide (("posting" : String) = "posting")) = true)]
    split <;> rfl
  · rw [key b _ hbt, shouldCheckExisting_posting, hbc]
    rw [if_neg (by decide : ¬ (decide (("personally_delivering" : String) = "posting")) = true)]
    rfl
  · rw [key b _ hbt, shouldCheckExisting_delivering, hbc]
    rw [if_pos (by decide : (decide (("personally_delivering" : String) =
      "personally_delivering")) = true)]
    split <;> rfl
  · rw [key a _ hat, shouldCheckExisting_delivering, hac]
    rw [if_neg (by decide : ¬ (decide (("posting" : String) = "personally_delivering")) = true)]
    rfl
  · intro c hc hct hcu sm
    rw [key c sm hct, hcu, shouldCheckExisting_unknown]
    rw [if_neg (by simp)]
    rfl

def c1Ctx : FillContext :=
  { signature_name := "Jane Q. Public", day := 3, month := 3, year := 2024 }

def c1Posting : Candidate :=
  { page := 0, text := "( )", x := 50, y := 600, width := 10, height := 10,
    font_size := 12, placeholder_type := "existing_checkbox", checkbox_type := "posting",
    nearby_text := "By posting same at the above described premises" }

def c1Delivering : Candidate :=
  { page := 0, text := "( )", x := 50, y := 620, width := 10, height := 10,
    font_size := 12, placeholder_type := "existing_checkbox",
    checkbox_type := "personally_delivering",
    nearby_text := "By personally delivering same upon said tenant" }

def c1Unknown : Candidate :=
  { page := 0, text := "( )", x := 50, y := 640, width := 10, height := 10,
    font_size := 12, placeholder_type := "existing_checkbox", checkbox_type := "unknown",
    nearby_text := "other text" }

/-- C1 witness: the three concrete candidates evaluated through the
theorem. -/
theorem C1_checkbox_exclusivity_witness :
    isMarked (fillCandidate [] { c1Ctx with service_method := some postingMethod }
      c1Posting) = true ∧
    isMarked (fillCandidate [] { c1Ctx with service_method := some postingMethod }
      c1Delivering) = false ∧
    isMarked (fillCandidate [] { c1Ctx with service_method := some deliveringMethod }
      c1Delivering) = true ∧
    isMarked (fillCandidate [] { c1Ctx with service_method := some deliveringMethod }
      c1Posting) = false ∧
    isMarked (fillCandidate [] { c1Ctx with service_method := some postingMethod }
      c1Unknown) = false := by
  have h := C1_checkbox_exclusivity [c1Posting, c1Delivering, c1Unknown]
    c1Posting c1Delivering [] c1Ctx (by simp) (by simp) rfl rfl rfl rfl
  exact ⟨h.1, h.2.1, h.2.2.1, h.2.2.2.1,
    h.2.2.2.2 c1Unknown (by simp) rfl rfl (some postingMethod)⟩

/-! ## Claim C8: per-page checkbox deduplication.

The proof tracks the scan fold with an invariant: the dedup set holds
exactly the positions of the existing-checkbox candidates emitted so far,
and those positions are pairwise distinct. -/

/-- Is a candidate an existing-checkbox candidate? -/
def isCb (c : Candidate) : Bool := decide (c.placeholder_type = "existing_checkbox")

/-- Positions of the existing-checkbox candidates of a list. -/
def cbKeys (l : List Candidate) : List (Int × Int) := (l.filter isCb).map keyOf

/-- Scan invariant: emitted checkbox positions are distinct and agree
with the dedup set. -/
def ScanInv (st : ScanState) : Prop :=
  (cbKeys st.acc).Nodup ∧ ∀ k : Int × Int, k ∈ st.dedup ↔ k ∈ cbKeys st.acc

theorem cbKeys_append (l1 l2 : List Candidate) :
    cbKeys (l1 ++ l2) = cbKeys l1 ++ cbKeys l2 := by
  unfold cbKeys
  rw [List.filter_append, List.map_append]

/-- What a successful checkbox step emits: an existing-checkbox candidate
at the token's position on this page, whose key was not yet in the dedup
set. -/
theorem checkboxStep_some_spec (pn : Nat) (ws : List Token) (w : Token)
    (d : List (Int × Int)) (kc : (Int × Int) × Candidate)
    (h : checkboxStep pn ws w d = some kc) :
    kc.1 = (w.x0, w.top) ∧ kc.2.placeholder_type = "existing_checkbox" ∧
    kc.2.page = pn ∧ kc.2.x = w.x0 ∧ kc.2.y = w.top ∧ kc.1 ∉ d := by
  unfold checkboxStep at h
  by_cases h1 : strTrim w.text = "( )" ∨ strTrim w.text = "()" ∨ strTrim w.text = "(.)" ∨
      strTrim w.text = "("
  · rw [if_pos h1] at h
    by_cases h2 : strTrim w.text = "(" ∧ ¬ hasMatchingCloseParen ws w
    · rw [if_pos h2] at h; cases h
    · rw [if_neg h2] at h
      by_cases h3 : (w.x0, w.top) ∈ d
      · rw [if_pos h3] at h; cases h
      · rw [if_neg h3] at h
        cases h
        exact ⟨rfl, rfl, rfl, rfl, rfl, h3⟩
  · rw [if_neg h1] at h
    by_cases h4 : strTrim w.text = "."
    · rw [if_pos h4] at h
      by_cases h5 : hasNearbyParen ws w
      · rw [if_pos h5] at h
        by_cases h3 : (w.x0, w.top) ∈ d
        · rw [if_pos h3] at h; cases h
        · rw [if_neg h3] at h
          cases h
          exact ⟨rfl, rfl, rfl, rfl, rfl, h3⟩
      · rw [if_neg h5] at h; cases h
    · rw [if_neg h4] at h; cases h

/-- An eligible token whose position is not yet deduplicated is emitted. -/
theorem checkboxStep_eligible_some (pn : Nat) (ws : List Token) (w : Token)
    (d : List (Int × Int)) (he : eligibleCheckbox ws w) (hd : (w.x0, w.top) ∉ d) :
    ∃ c : Candidate, checkboxStep pn ws w d = some ((w.x0, w.top), c) := by
  unfold checkboxStep
  rcases he with h1 | ⟨h1, h2⟩ | ⟨h1, h2⟩
  · have hor : strTrim w.text = "( )" ∨ strTrim w.text = "()" ∨ strTrim w.text = "(.)" ∨
        strTrim w.text = "(" := by tauto
    rw [if_pos hor]
    have hno : ¬ (strTrim w.text = "(" ∧ ¬ hasMatchingCloseParen ws w) := by
      rintro ⟨hp, _⟩
      rcases h1 with h | h | h <;> (rw [h] at hp; exact absurd hp (by decide))
    rw [if_neg hno, if_neg hd]
    exact ⟨_, rfl⟩
  · rw [if_pos (Or.inr (Or.inr (Or.inr h1)))]
    have hno : ¬ (strTrim w.text = "(" ∧ ¬ hasMatchingCloseParen ws w) := fun hq => hq.2 h2
    rw [if_neg hno, if_neg hd]
    exact ⟨_, rfl⟩
  · have hne : ¬ (strTrim w.text = "( )" ∨ strTrim w.text = "()" ∨ strTrim w.text = "(.)" ∨
        strTrim w.text = "(") := by
      rw [h1]; decide
    rw [if_neg hne, if_pos h1, if_pos h2, if_neg hd]
    exact ⟨_, rfl⟩

/-- A silent checkbox step means the token was ineligible or its position
was already seen. -/
theorem checkboxStep_none_spec (pn : Nat) (ws : List Token) (w : Token)
    (d : List (Int × Int)) (h : checkboxStep pn ws w d = none) :
    ¬ eligibleCheckbox ws w ∨ (w.x0, w.top) ∈ d := by
  by_cases he : eligibleCheckbox ws w
  · by_cases hd : (w.x0, w.top) ∈ d
    · exact Or.inr hd
    · rcases checkboxStep_eligible_some pn ws w d he hd with ⟨c, hc⟩
      rw [hc] at h
      cases h
  · exact Or.inl he

/-- The three text rules never emit existing-checkbox candidates. -/
theorem sigWordRule_cb (pn : Nat) (w : Token) : (sigWordRule pn w).filter isCb = [] := by
  simp only [sigWordRule]
  split
  · simp [isCb, mkCand]
  · simp

theorem sigWordRule_page (pn : Nat) (w : Token) : ∀ c ∈ sigWordRule pn w, c.page = pn := by
  simp only [sigWordRule]
  split
  · intro c hc
    have hc' := List.mem_singleton.mp hc
    subst hc'
    rfl
  · intro c hc
    cases hc

theorem longUnderscoreRule_cb (tmpl : Option String) (pn : Nat) (w : Token) :
    (longUnderscoreRule tmpl pn w).filter isCb = [] := by
  simp only [longUnderscoreRule]
  split
  · simp [isCb, mkCand]
  · simp

theorem longUnderscoreRule_page (tmpl : Option String) (pn : Nat) (w : Token) :
    ∀ c ∈ longUnderscoreRule tmpl pn w, c.page = pn := by
  simp only [longUnderscoreRule]
  split
  · intro c hc
    have hc' := List.mem_singleton.mp hc
    subst hc'
    rfl
  · intro c hc
    cases hc

theorem underscoreBlankRule_cb (pn : Nat) (ws : List Token) (w : Token) :
    (underscoreBlankRule pn ws w).filter isCb = [] := by
  simp only [underscoreBlankRule]
  split
  · split
    · simp
    · simp [isCb, mkCand]
  · simp

theorem underscoreBlankRule_page (pn : Nat) (ws : List Token) (w : Token) :
    ∀ c ∈ underscoreBlankRule pn ws w, c.page = pn := by
  simp only [underscoreBlankRule]
  split
  · split
    · intro c hc
      cases hc
    · intro c hc
      have hc' := List.mem_singleton.mp hc
      subst hc'
      rfl
  · intro c hc
    cases hc

/-- The three rule appends leave the checkbox-position list unchanged. -/
theorem cbKeys_ruleAppends (tmpl : Option String) (pn : Nat) (ws : List Token) (w : Token)
    (acc : List Candidate) :
    cbKeys (acc ++ sigWordRule pn w ++ longUnderscoreRule tmpl pn w ++
      underscoreBlankRule pn ws w) = cbKeys acc := by
  rw [cbKeys_append, cbKeys_append, cbKeys_append]
  unfold cbKeys
  rw [sigWordRule_cb pn w, longUnderscoreRule_cb tmpl pn w, underscoreBlankRule_cb pn ws w]
  simp

/-- The emitted candidate of a successful step occupies exactly the
token's position. -/
theorem cbKeys_step_single (pn : Nat) (ws : List Token) (w : Token)
    (d : List (Int × Int)) (kc : (Int × Int) × Candidate)
    (h : checkboxStep pn ws w d = some kc) :
    cbKeys [kc.2] = [(w.x0, w.top)] := by
  obtain ⟨hk1, hty, _, hx, hy, _⟩ := checkboxStep_some_spec pn ws w d kc h
  unfold cbKeys
  rw [List.filter_cons, if_pos (by simp [isCb, hty])]
  simp [keyOf, hx, hy]

theorem scanWord_inv (tmpl : Option String) (pn : Nat) (ws : List Token)
    (st : ScanState) (w : Token) (h : ScanInv st) :
    ScanInv (scanWord tmpl pn ws st w) := by
  unfold scanWord
  cases hstep : checkboxStep pn ws w st.dedup with
  | none =>
    simp only [hstep]
    exact ⟨by rw [cbKeys_ruleAppends]; exact h.1,
      fun k => by rw [cbKeys_ruleAppends]; exact h.2 k⟩
  | some kc =>
    simp only [hstep]
    obtain ⟨hk1, hty, _, hx, hy, hnd⟩ := checkboxStep_some_spec pn ws w st.dedup kc hstep
    have hsingle := cbKeys_step_single pn ws w st.dedup kc hstep
    have hknotin : kc.1 ∉ cbKeys st.acc := fun hmem => hnd ((h.2 kc.1).mpr hmem)
    constructor
    · show (cbKeys (_ ++ [kc.2])).Nodup
      rw [cbKeys_append, cbKeys_ruleAppends, hsingle, ← hk1]
      rw [List.nodup_append]
      refine ⟨h.1, List.nodup_singleton _, ?_⟩
      intro x hx1 hx2
      rcases List.mem_singleton.mp hx2 with rfl
      exact hknotin hx1
    · intro k
      show k ∈ kc.1 :: st.dedup ↔ k ∈ cbKeys (_ ++ [kc.2])
      rw [cbKeys_append, cbKeys_ruleAppends, hsingle, ← hk1]
      simp only [List.mem_cons, List.mem_append, List.mem_singleton]
      rw [h.2 k]
      tauto

theorem scanWord_mono (tmpl : Option String) (pn : Nat) (ws : List Token)
    (st : ScanState) (w : Token) (k : Int × Int) (hk : k ∈ cbKeys st.acc) :
    k ∈ cbKeys (scanWord tmpl pn ws st w).acc := by
  unfold scanWord
  cases hstep : checkboxStep pn ws w st.dedup with
  | none =>
    simp only [hstep]
    rw [cbKeys_ruleAppends]
    exact hk
  | some kc =>
    simp only [hstep]
    show k ∈ cbKeys (_ ++ [kc.2])
    rw [cbKeys_append, cbKeys_ruleAppends]
    exact List.mem_append_left _ hk

theorem scanWord_elig (tmpl : Option String) (pn : Nat) (ws : List Token)
    (st : ScanState) (w : Token) (h : ScanInv st) (he : eligibleCheckbox ws w) :
    (w.x0, w.top) ∈ cbKeys (scanWord tmpl pn ws st w).acc := by
  unfold scanWord
  cases hstep : checkboxStep pn ws w st.dedup with
  | none =>
    simp only [hstep]
    rw [cbKeys_ruleAppends]
    rcases checkboxStep_none_spec pn ws w st.dedup hstep with hne | hmem
    · exact absurd he hne
    · exact (h.2 _).mp hmem
  | some kc =>
    simp only [hstep]
    show (w.x0, w.top) ∈ cbKeys (_ ++ [kc.2])
    rw [cbKeys_append, cbKeys_ruleAppends, cbKeys_step_single pn ws w st.dedup kc hstep]
    exact List.mem_append_right _ (List.mem_singleton.mpr rfl)

theorem scanFold_inv (tmpl : Option String) (pn : Nat) (ws : List Token) :
    ∀ (l : List Token) (st : ScanState), ScanInv st →
      ScanInv (List.foldl (scanWord tmpl pn ws) st l) := by
  intro l
  induction l with
  | nil => intro st h; simpa using h
  | cons w rest ih =>
    intro st h
    simp only [List.foldl_cons]
    exact ih _ (scanWord_inv tmpl pn ws st w h)

theorem scanFold_mono (tmpl : Option String) (pn : Nat) (ws : List Token) :
    ∀ (l : List Token) (st : ScanState) (k : Int × Int), k ∈ cbKeys st.acc →
      k ∈ cbKeys (List.foldl (scanWord tmpl pn ws) st l).acc := by
  intro l
  induction l with
  | nil => intro st k hk; simpa using hk
  | cons w rest ih =>
    intro st k hk
    simp only [List.foldl_cons]
    exact ih _ k (scanWord_mono tmpl pn ws st w k hk)

theorem scanFold_elig (tmpl : Option String) (pn : Nat) (ws : List Token) :
    ∀ (l : List Token) (st : ScanState) (w : Token), ScanInv st → w ∈ l →
      eligibleCheckbox ws w →
      (w.x0, w.top) ∈ cbKeys (List.foldl (scanWord tmpl pn ws) st l).acc := by
  intro l
  induction l with
  | nil => intro st w _ hw _; exact absurd hw (List.not_mem_nil w)
  | cons w' rest ih =>
    intro st w hinv hw he
    simp only [List.foldl_cons]
    rcases List.mem_cons.mp hw with rfl | hwrest
    · exact scanFold_mono tmpl pn ws rest _ _ (scanWord_elig tmpl pn ws st w hinv he)
    · exact ih _ w (scanWord_inv tmpl pn ws st w' hinv) hwrest he

theorem scanInv_init : ScanInv ⟨[], []⟩ :=
  ⟨List.nodup_nil, fun k => by simp [cbKeys]⟩

theorem scanPage_nodup (tmpl : Option String) (pn : Nat) (ws : List Token) :
    (cbKeys (scanPage tmpl pn ws)).Nodup :=
  (scanFold_inv tmpl pn ws ws ⟨[], []⟩ scanInv_init).1

theorem scanPage_elig_mem (tmpl : Option String) (pn : Nat) (ws : List Token) (w : Token)
    (hw : w ∈ ws) (he : eligibleCheckbox ws w) :
    (w.x0, w.top) ∈ cbKeys (scanPage tmpl pn ws) :=
  scanFold_elig tmpl pn ws ws ⟨[], []⟩ w scanInv_init hw he

/-- Every candidate a scan step produces carries the scanned page index. -/
theorem scanWord_page (tmpl : Option String) (pn : Nat) (ws : List Token)
    (st : ScanState) (w : Token) (h : ∀ c ∈ st.acc, c.page = pn) :
    ∀ c ∈ (scanWord tmpl pn ws st w).acc, c.page = pn := by
  unfold scanWord
  cases hstep : checkboxStep pn ws w st.dedup with
  | none =>
    simp only [hstep]
    intro c hc
    rcases List.mem_append.mp hc with hc1 | hc1
    · rcases List.mem_append.mp hc1 with hc2 | hc2
      · rcases List.mem_append.mp hc2 with hc3 | hc3
        · exact h c hc3
        · exact sigWordRule_page pn w c hc3
      · exact longUnderscoreRule_page tmpl pn w c hc2
    · exact underscoreBlankRule_page pn ws w c hc1
  | some kc =>
    simp only [hstep]
    intro c hc
    rcases List.mem_append.mp hc with hc0 | hc0
    · rcases List.mem_append.mp hc0 with hc1 | hc1
      · rcases List.mem_append.mp hc1 with hc2 | hc2
        · rcases List.mem_append.mp hc2 with hc3 | hc3
          · exact h c hc3
          · exact sigWordRule_page pn w c hc3
        · exact longUnderscoreRule_page tmpl pn w c hc2
      · exact underscoreBlankRule_page pn ws w c hc1
    · have hc' := List.mem_singleton.mp hc0
      subst hc'
      exact (checkboxStep_some_spec pn ws w st.dedup kc hstep).2.2.1

theorem scanFold_page (tmpl : Option String) (pn : Nat) (ws : List Token) :
    ∀ (l : List Token) (st : ScanState), (∀ c ∈ st.acc, c.page = pn) →
      ∀ c ∈ (List.foldl (scanWord tmpl pn ws) st l).acc, c.page = pn := by
  intro l
  induction l with
  | nil => intro st h; simpa using h
  | cons w rest ih =>
    intro st h
    simp only [List.foldl_cons]
    exact ih _ (scanWord_page tmpl pn ws st w h)

theorem scanPage_page (tmpl : Option String) (pn : Nat) (ws : List Token) :
    ∀ c ∈ scanPage tmpl pn ws, c.page = pn :=
  scanFold_page tmpl pn ws ws ⟨[], []⟩ (by intro c hc; cases hc)

/-! ### Counting existing-checkbox candidates at one position -/

theorem cbCountAt_zero_of_not_mem (l : List Candidate) (pn : Nat) (px py : Int)
    (h : (px, py) ∉ cbKeys l) : cbCountAt l pn px py = 0 := by
  unfold cbCountAt
  rw [List.length_eq_zero, List.filter_eq_nil_iff]
  intro c hc hpc
  have hp := of_decide_eq_true hpc
  refine h ?_
  unfold cbKeys
  refine List.mem_map.mpr ⟨c, List.mem_filter.mpr ⟨hc, by simp [isCb, hp.1]⟩, ?_⟩
  simp [keyOf, hp.2.2.1, hp.2.2.2]

theorem cbCountAt_le_one (pn : Nat) (px py : Int) :
    ∀ l : List Candidate, (∀ c ∈ l, c.page = pn) → (cbKeys l).Nodup →
      cbCountAt l pn px py ≤ 1 := by
  intro l
  induction l with
  | nil => intro _ _; simp [cbCountAt]
  | cons c rest ih =>
    intro hpages hnd
    have hpagesrest : ∀ d ∈ rest, d.page = pn := fun d hd =>
      hpages d (List.mem_cons_of_mem _ hd)
    by_cases hcb : c.placeholder_type = "existing_checkbox"
    · have hkeys : cbKeys (c :: rest) = keyOf c :: cbKeys rest := by
        unfold cbKeys
        rw [List.filter_cons, if_pos (by simp [isCb, hcb])]
        rfl
      rw [hkeys] at hnd
      have hndrest := (List.nodup_cons.mp hnd).2
      have hknotin := (List.nodup_cons.mp hnd).1
      by_cases hp : (c.placeholder_type = "existing_checkbox" ∧ c.page = pn ∧
          c.x = px ∧ c.y = py)
      · have hcount0 : cbCountAt rest pn px py = 0 := by
          refine cbCountAt_zero_of_not_mem rest pn px py ?_
          have : keyOf c = (px, py) := by simp [keyOf, hp.2.2.1, hp.2.2.2]
          rw [← this]
          exact hknotin
        unfold cbCountAt at hcount0 ⊢
        rw [List.filter_cons, if_pos (by simp [hp])]
        simp only [List.length_cons]
        omega
      · unfold cbCountAt at ih ⊢
        rw [List.filter_cons, if_neg (by simpa using hp)]
        exact ih hpagesrest hndrest
    · have hkeys : cbKeys (c :: rest) = cbKeys rest := by
        unfold cbKeys
        rw [List.filter_cons, if_neg (by simp [isCb, hcb])]
      rw [hkeys] at hnd
      unfold cbCountAt at ih ⊢
      rw [List.filter_cons, if_neg (by simp; intro h1; exact absurd h1 hcb)]
      exact ih hpagesrest hnd

theorem cbCountAt_pos_of_mem (l : List Candidate) (pn : Nat) (px py : Int)
    (hpages : ∀ c ∈ l, c.page = pn) (h : (px, py) ∈ cbKeys l) :
    1 ≤ cbCountAt l pn px py := by
  unfold cbKeys at h
  rcases List.mem_map.mp h with ⟨c, hcf, hkey⟩
  rcases List.mem_filter.mp hcf with ⟨hcl, hcb⟩
  have hty : c.placeholder_type = "existing_checkbox" := by
    simpa [isCb] using hcb
  have hxy : c.x = px ∧ c.y = py := by
    unfold keyOf at hkey
    exact ⟨congrArg Prod.fst hkey, congrArg Prod.snd hkey⟩
  have hmem : c ∈ l.filter (fun c =>
      decide (c.placeholder_type = "existing_checkbox" ∧ c.page = pn ∧
        c.x = px ∧ c.y = py)) :=
    List.mem_filter.mpr ⟨hcl, by simp [hty, hpages c hcl, hxy.1, hxy.2]⟩
  unfold cbCountAt
  exact List.length_pos_of_mem hmem

/-! ### The post-processing step never touches checkbox candidates -/

theorem getD_mem_or_default (l : List String) (n : Nat) (d : String) :
    l.getD n d ∈ l ∨ l.getD n d = d := by
  by_cases h : n < l.length
  · left
    rw [List.getD_eq_get l d h]
    exact List.get_mem l n h
  · right
    unfold List.getD
    rw [List.get?_eq_none.mpr (by omega)]
    rfl

theorem blankPattern_getD_ne (tmpl : Option String) (i : Nat) :
    (blankPattern tmpl).getD i "" ≠ "existing_checkbox" ∧
    (blankPattern tmpl).getD i "" ≠ "underscore_blank" := by
  generalize hval : (blankPattern tmpl).getD i "" = v
  rcases getD_mem_or_default (blankPattern tmpl) i "" with h | h <;> rw [hval] at h
  · unfold blankPattern at h
    split at h <;> fin_cases h <;> exact ⟨by decide, by decide⟩
  · rw [h]
    exact ⟨by decide, by decide⟩

theorem floridaAssign_mem (i : Nat) (s : String) :
    floridaAssign i s ∈ ["day_blank", "month_blank", "year_blank", "signature"] := by
  simp only [floridaAssign]
  split
  · simp
  · split
    · simp
    · split
      · simp
      · split
        · simp
        · split
          · simp
          · have h3 : i % 3 = 0 ∨ i % 3 = 1 ∨ i % 3 = 2 := by omega
            rcases h3 with h | h | h <;> simp [h]

theorem assignedTypeFor_ne (tmpl : Option String) (i : Nat) (b : Candidate) (t : String)
    (h : assignedTypeFor tmpl i b = some t) :
    t ≠ "existing_checkbox" ∧ t ≠ "underscore_blank" := by
  unfold assignedTypeFor at h
  split at h
  · cases h
    have hm := floridaAssign_mem i b.text
    simp at hm
    rcases hm with h | h | h | h <;> simp [h]
  · split at h
    · split at h
      · cases h
        exact blankPattern_getD_ne tmpl i
      · cases h
    · split at h
      · cases h
        exact blankPattern_getD_ne tmpl i
      · cases h

/-- Membership description of the assignment list: every entry comes from
some index of the sorted blank list, with its position key and its
assigned type. -/
theorem blankAssignmentsFrom_spec (tmpl : Option String) :
    ∀ (l : List Candidate) (i : Nat) (a : (Int × Int) × String),
      a ∈ blankAssignmentsFrom tmpl i l →
      ∃ j, ∃ hj : j < l.length, a.1 = keyOf (l.get ⟨j, hj⟩) ∧
        assignedTypeFor tmpl (i + j) (l.get ⟨j, hj⟩) = some a.2 := by
  intro l
  induction l with
  | nil => intro i a ha; cases ha
  | cons b rest ih =>
    intro i a ha
    unfold blankAssignmentsFrom at ha
    cases hb : assignedTypeFor tmpl i b with
    | some t =>
      rw [hb] at ha
      rcases List.mem_cons.mp ha with rfl | ha'
      · exact ⟨0, by simp, rfl, by simpa using hb⟩
      · rcases ih (i + 1) a ha' with ⟨j, hj, h1, h2⟩
        refine ⟨j + 1, by simpa using Nat.succ_lt_succ hj, h1, ?_⟩
        have harith : i + 1 + j = i + (j + 1) := by omega
        rw [← harith]
        exact h2
    | none =>
      rw [hb] at ha
      rcases ih (i + 1) a ha with ⟨j, hj, h1, h2⟩
      refine ⟨j + 1, by simpa using Nat.succ_lt_succ hj, h1, ?_⟩
      have harith : i + 1 + j = i + (j + 1) := by omega
      rw [← harith]
      exact h2

theorem assignBlank_cbCountAt (k : Int × Int) (t : String) (ht : t ≠ "existing_checkbox") :
    ∀ (l : List Candidate) (pn : Nat) (px py : Int),
      cbCountAt (assignBlank k t l) pn px py = cbCountAt l pn px py := by
  intro l
  induction l with
  | nil => intro pn px py; rfl
  | cons c rest ih =>
    intro pn px py
    unfold assignBlank
    by_cases hm : c.placeholder_type = "underscore_blank" ∧ c.x = k.1 ∧ c.y = k.2
    · rw [if_pos hm]
      unfold cbCountAt
      rw [List.filter_cons, List.filter_cons]
      rw [if_neg (by simp; intro h1; exact absurd h1 ht)]
      rw [if_neg (by simp; intro h1; rw [hm.1] at h1; exact absurd h1 (by decide))]
    · rw [if_neg hm]
      unfold cbCountAt
      rw [List.filter_cons, List.filter_cons]
      by_cases hp : (c.placeholder_type = "existing_checkbox" ∧ c.page = pn ∧
          c.x = px ∧ c.y = py)
      · rw [if_pos (by simpa using hp), if_pos (by simpa using hp)]
        simp only [List.length_cons]
        have := ih pn px py
        unfold cbCountAt at this
        omega
      · rw [if_neg (by simpa using hp), if_neg (by simpa using hp)]
        have := ih pn px py
        unfold cbCountAt at this
        exact this

theorem foldAssign_cbCountAt (pn : Nat) (px py : Int) :
    ∀ (assigns : List ((Int × Int) × String)) (l : List Candidate),
      (∀ a ∈ assigns, a.2 ≠ "existing_checkbox") →
      cbCountAt (assigns.foldl (fun l a => assignBlank a.1 a.2 l) l) pn px py =
        cbCountAt l pn px py := by
  intro assigns
  induction assigns with
  | nil => intro l _; rfl
  | cons a rest ih =>
    intro l h
    simp only [List.foldl_cons]
    rw [ih _ (fun b hb => h b (List.mem_cons_of_mem _ hb))]
    exact assignBlank_cbCountAt a.1 a.2 (h a (List.mem_cons_self _ _)) l pn px py

theorem postProcess_cbCountAt (tmpl : Option String) (l : List Candidate) (pn : Nat)
    (px py : Int) :
    cbCountAt (postProcessBlanks tmpl l) pn px py = cbCountAt l pn px py := by
  unfold postProcessBlanks
  split
  · rfl
  · refine foldAssign_cbCountAt pn px py _ l ?_
    intro a ha
    unfold blankAssignments at ha
    rcases blankAssignmentsFrom_spec tmpl _ 0 a ha with ⟨j, hj, _, htype⟩
    exact (assignedTypeFor_ne tmpl _ _ _ htype).1

/-! ### Locating one page's scan inside the whole-document scan -/

theorem cbCountAt_append (l1 l2 : List Candidate) (pn : Nat) (px py : Int) :
    cbCountAt (l1 ++ l2) pn px py = cbCountAt l1 pn px py + cbCountAt l2 pn px py := by
  unfold cbCountAt
  rw [List.filter_append, List.length_append]

theorem cbCountAt_ne_page (l : List Candidate) (pn pn' : Nat) (px py : Int)
    (hpages : ∀ c ∈ l, c.page = pn') (hne : pn' ≠ pn) :
    cbCountAt l pn px py = 0 := by
  unfold cbCountAt
  rw [List.length_eq_zero, List.filter_eq_nil_iff]
  intro c hc hp
  have h := of_decide_eq_true hp
  exact hne (by rw [← hpages c hc]; exact h.2.1)

theorem scanPagesFrom_count_zero (tmpl : Option String) (px py : Int) :
    ∀ (pages : List (List Token)) (i pn : Nat), pn < i →
      cbCountAt (scanPagesFrom tmpl i pages) pn px py = 0 := by
  intro pages
  induction pages with
  | nil => intro i pn _; rfl
  | cons p rest ih =>
    intro i pn hlt
    show cbCountAt (scanPage tmpl i p ++ scanPagesFrom tmpl (i + 1) rest) pn px py = 0
    rw [cbCountAt_append,
      cbCountAt_ne_page _ pn i px py (scanPage_page tmpl i p) (by omega),
      ih (i + 1) pn (by omega)]

theorem scanPagesFrom_count (tmpl : Option String) (px py : Int) :
    ∀ (pages : List (List Token)) (i j : Nat) (ws : List Token),
      pages.get? j = some ws →
      cbCountAt (scanPagesFrom tmpl i pages) (i + j) px py =
        cbCountAt (scanPage tmpl (i + j) ws) (i + j) px py := by
  intro pages
  induction pages with
  | nil => intro i j ws h; cases h
  | cons p rest ih =>
    intro i j ws h
    cases j with
    | zero =>
      have hp : p = ws := by simpa using h
      subst hp
      show cbCountAt (scanPage tmpl i p ++ scanPagesFrom tmpl (i + 1) rest) (i + 0) px py = _
      rw [cbCountAt_append,
        scanPagesFrom_count_zero tmpl px py rest (i + 1) (i + 0) (by omega)]
      simp
    | succ j' =>
      have h' : rest.get? j' = some ws := by simpa using h
      show cbCountAt (scanPage tmpl i p ++ scanPagesFrom tmpl (i + 1) rest)
        (i + (j' + 1)) px py = _
      have harith : i + (j' + 1) = (i + 1) + j' := by omega
      rw [harith, cbCountAt_append,
        cbCountAt_ne_page _ _ i px py (scanPage_page tmpl i p) (by omega),
        ih (i + 1) j' ws h', Nat.zero_add]

/-- C8: on any page containing two tokens at the same `(x0, top)`
position that both match a checkbox spelling (a parenthesis glyph, a lone
`(` with its `)`, or an eligible period), the classifier emits exactly
one existing-checkbox candidate at that position — the per-page
deduplication set guarantees no position ever yields two. -/
theorem C8_checkbox_dedup (tmpl : Option String) (pages : List (List Token)) (pn : Nat)
    (ws : List Token) (hp : pages.get? pn = some ws) (w1 w2 : Token)
    (h1 : w1 ∈ ws) (h2 : w2 ∈ ws)
    (he1 : eligibleCheckbox ws w1) (he2 : eligibleCheckbox ws w2)
    (hx : w2.x0 = w1.x0) (hy : w2.top = w1.top) :
    cbCountAt (extractPlaceholders tmpl pages) pn w1.x0 w1.top = 1 := by
  unfold extractPlaceholders
  rw [postProcess_cbCountAt]
  unfold scanDocument
  have hcount := scanPagesFrom_count tmpl w1.x0 w1.top pages 0 pn ws hp
  rw [Nat.zero_add] at hcount
  rw [hcount]
  have hle := cbCountAt_le_one pn w1.x0 w1.top (scanPage tmpl pn ws)
    (scanPage_page tmpl pn ws) (scanPage_nodup tmpl pn ws)
  have hge := cbCountAt_pos_of_mem (scanPage tmpl pn ws) pn w1.x0 w1.top
    (scanPage_page tmpl pn ws) (scanPage_elig_mem tmpl pn ws w1 h1 he1)
  omega

def c8Tok1 : Token := { text := "( )", x0 := 50, x1 := 60, top := 700, bottom := 710, size := 12 }

def c8Tok2 : Token := { text := "( )", x0 := 50, x1 := 62, top := 700, bottom := 710, size := 12 }

/-- C8 witness: a page carrying two "( )" tokens at the same position
yields exactly one existing-checkbox candidate there. -/
theorem C8_checkbox_dedup_witness :
    cbCountAt (extractPlaceholders none [[c8Tok1, c8Tok2]]) 0 50 700 = 1 :=
  C8_checkbox_dedup none [[c8Tok1, c8Tok2]] 0 [c8Tok1, c8Tok2] rfl c8Tok1 c8Tok2
    (by simp) (by simp) (by decide) (by decide) rfl rfl

/-! ## Claim C2: excess underscore blanks.

To reason about the assignment fold we show that, when the blank
positions are pairwise distinct, the sequence of first-match updates is
the same as one pointwise reassignment keyed on each candidate's
position. -/

/-- One assignment applied pointwise (the first-match update touches at
most one candidate, so under distinct keys it is this map). -/
def applySingle (a : (Int × Int) × String) (c : Candidate) : Candidate :=
  if c.placeholder_type = "underscore_blank" ∧ c.x = a.1.1 ∧ c.y = a.1.2 then
    { c with placeholder_type := a.2 }
  else c

/-- First assigned type for a position, if any. -/
def lookupKey (k : Int × Int) : List ((Int × Int) × String) → Option String
  | [] => none
  | a :: rest => if a.1 = k then some a.2 else lookupKey k rest

/-- The whole assignment sequence applied pointwise. -/
def applyAssigns (assigns : List ((Int × Int) × String)) (c : Candidate) : Candidate :=
  if c.placeholder_type = "underscore_blank" then
    match lookupKey (keyOf c) assigns with
    | some t => { c with placeholder_type := t }
    | none => c
  else c

theorem map_congr_mem {α β : Type} (l : List α) (f g : α → β) (h : ∀ x ∈ l, f x = g x) :
    l.map f = l.map g := by
  induction l with
  | nil => rfl
  | cons a rest ih =>
    simp only [List.map_cons]
    rw [h a (List.mem_cons_self _ _), ih (fun x hx => h x (List.mem_cons_of_mem _ hx))]

theorem map_id_mem {α : Type} (l : List α) (f : α → α) (h : ∀ x ∈ l, f x = x) :
    l.map f = l := by
  induction l with
  | nil => rfl
  | cons a rest ih =>
    simp only [List.map_cons]
    rw [h a (List.mem_cons_self _ _), ih (fun x hx => h x (List.mem_cons_of_mem _ hx))]

/-- When at most one candidate matches the assignment's key, the
first-match update is the pointwise update. -/
theorem assignBlank_eq_map (k : Int × Int) (t : String) :
    ∀ l : List Candidate,
      l.countP (fun c => decide (c.placeholder_type = "underscore_blank" ∧
        c.x = k.1 ∧ c.y = k.2)) ≤ 1 →
      assignBlank k t l = l.map (applySingle (k, t)) := by
  intro l
  induction l with
  | nil => intro _; rfl
  | cons c rest ih =>
    intro h
    rw [List.countP_cons] at h
    unfold assignBlank
    by_cases hm : c.placeholder_type = "underscore_blank" ∧ c.x = k.1 ∧ c.y = k.2
    · rw [if_pos hm]
      simp only [List.map_cons]
      have h1 : applySingle (k, t) c = { c with placeholder_type := t } := by
        unfold applySingle
        rw [if_pos hm]
      rw [h1]
      have hcount : rest.countP (fun c => decide (c.placeholder_type = "underscore_blank" ∧
          c.x = k.1 ∧ c.y = k.2)) = 0 := by
        rw [if_pos (by simpa using hm)] at h
        omega
      have hnone : ∀ d ∈ rest, ¬(d.placeholder_type = "underscore_blank" ∧
          d.x = k.1 ∧ d.y = k.2) := by
        intro d hd hcond
        have hpos : 0 < rest.countP (fun c => decide (c.placeholder_type = "underscore_blank" ∧
            c.x = k.1 ∧ c.y = k.2)) :=
          List.countP_pos.mpr ⟨d, hd, by simpa using hcond⟩
        omega
      have : rest.map (applySingle (k, t)) = rest := by
        refine map_id_mem rest _ ?_
        intro d hd
        unfold applySingle
        rw [if_neg (hnone d hd)]
      rw [this]
    · rw [if_neg hm]
      simp only [List.map_cons]
      have h1 : applySingle (k, t) c = c := by
        unfold applySingle
        rw [if_neg hm]
      rw [h1]
      have hrest : rest.countP (fun c => decide (c.placeholder_type = "underscore_blank" ∧
          c.x = k.1 ∧ c.y = k.2)) ≤ 1 := by
        rw [if_neg (by simpa using hm)] at h
        omega
      rw [ih hrest]

theorem applyAssigns_of_ne_ub (assigns : List ((Int × Int) × String)) (c : Candidate)
    (h : ¬ c.placeholder_type = "underscore_blank") : applyAssigns assigns c = c := by
  unfold applyAssigns
  rw [if_neg h]

/-- Under pairwise-distinct assignment keys, the assignment fold is the
pointwise reassignment. -/
theorem foldAssign_eq_map :
    ∀ (assigns : List ((Int × Int) × String)) (l : List Candidate),
      (∀ a ∈ assigns, l.countP (fun c => decide (c.placeholder_type = "underscore_blank" ∧
        c.x = a.1.1 ∧ c.y = a.1.2)) ≤ 1) →
      (∀ a ∈ assigns, a.2 ≠ "underscore_blank") →
      assigns.foldl (fun l a => assignBlank a.1 a.2 l) l = l.map (applyAssigns assigns) := by
  intro assigns
  induction assigns with
  | nil =>
    intro l _ _
    simp only [List.foldl_nil]
    refine (map_id_mem l _ ?_).symm
    intro c _
    unfold applyAssigns
    split
    · rfl
    · rfl
  | cons a rest ih =>
    intro l hA hC
    simp only [List.foldl_cons]
    have hstep : assignBlank a.1 a.2 l = l.map (applySingle (a.1, a.2)) :=
      assignBlank_eq_map a.1 a.2 l (hA a (List.mem_cons_self _ _))
    rw [hstep]
    have hane : a.2 ≠ "underscore_blank" := hC a (List.mem_cons_self _ _)
    have hA' : ∀ b ∈ rest, (l.map (applySingle (a.1, a.2))).countP
        (fun c => decide (c.placeholder_type = "underscore_blank" ∧
          c.x = b.1.1 ∧ c.y = b.1.2)) ≤ 1 := by
      intro b hb
      rw [List.countP_map]
      refine le_trans (List.countP_mono_left ?_) (hA b (List.mem_cons_of_mem _ hb))
      intro c _ hpc
      simp only [Function.comp] at hpc
      unfold applySingle at hpc
      by_cases hm : c.placeholder_type = "underscore_blank" ∧ c.x = a.1.1 ∧ c.y = a.1.2
      · rw [if_pos hm] at hpc
        have hpc' := of_decide_eq_true hpc
        exact absurd hpc'.1 hane
      · rw [if_neg hm] at hpc
        exact hpc
    rw [ih _ hA' (fun b hb => hC b (List.mem_cons_of_mem _ hb)), List.map_map]
    refine map_congr_mem l _ _ ?_
    intro c _
    show applyAssigns rest (applySingle (a.1, a.2) c) = applyAssigns (a :: rest) c
    by_cases hub : c.placeholder_type = "underscore_blank"
    · by_cases hk : c.x = a.1.1 ∧ c.y = a.1.2
      · have hm : c.placeholder_type = "underscore_blank" ∧ c.x = a.1.1 ∧ c.y = a.1.2 :=
          ⟨hub, hk.1, hk.2⟩
        have heq1 : applySingle (a.1, a.2) c = { c with placeholder_type := a.2 } := by
          unfold applySingle
          rw [if_pos hm]
        have heq2 : applyAssigns rest { c with placeholder_type := a.2 } =
            { c with placeholder_type := a.2 } :=
          applyAssigns_of_ne_ub rest _ hane
        have hkey : a.1 = keyOf c := by
          unfold keyOf
          rw [hk.1, hk.2]
        have hlook : lookupKey (keyOf c) (a :: rest) = some a.2 := by
          have hstep2 : lookupKey (keyOf c) (a :: rest) =
              if a.1 = keyOf c then some a.2 else lookupKey (keyOf c) rest := rfl
          rw [hstep2, if_pos hkey]
        rw [heq1, heq2]
        unfold applyAssigns
        rw [if_pos hub, hlook]
      · have heq1 : applySingle (a.1, a.2) c = c := by
          unfold applySingle
          rw [if_neg (fun hm => hk ⟨hm.2.1, hm.2.2⟩)]
        have hkey : ¬ a.1 = keyOf c := by
          intro hq
          refine hk ⟨?_, ?_⟩
          · have hfst := congrArg Prod.fst hq
            unfold keyOf at hfst
            exact hfst.symm
          · have hsnd := congrArg Prod.snd hq
            unfold keyOf at hsnd
            exact hsnd.symm
        have hlook : lookupKey (keyOf c) (a :: rest) = lookupKey (keyOf c) rest := by
          have hstep2 : lookupKey (keyOf c) (a :: rest) =
              if a.1 = keyOf c then some a.2 else lookupKey (keyOf c) rest := rfl
          rw [hstep2, if_neg hkey]
        rw [heq1]
        unfold applyAssigns
        rw [if_pos hub, if_pos hub, hlook]
    · have heq1 : applySingle (a.1, a.2) c = c := by
        unfold applySingle
        rw [if_neg (fun hm => hub hm.1)]
      rw [heq1, applyAssigns_of_ne_ub rest c hub, applyAssigns_of_ne_ub (a :: rest) c hub]

theorem countP_key_le_one :
    ∀ l : List Candidate, (l.map keyOf).Nodup → ∀ k : Int × Int,
      l.countP (fun c => decide (c.x = k.1 ∧ c.y = k.2)) ≤ 1 := by
  intro l
  induction l with
  | nil => intro _ k; simp
  | cons c rest ih =>
    intro h k
    rw [List.map_cons, List.nodup_cons] at h
    rw [List.countP_cons]
    by_cases hp : c.x = k.1 ∧ c.y = k.2
    · have h0 : rest.countP (fun c => decide (c.x = k.1 ∧ c.y = k.2)) = 0 := by
        by_contra hne
        rcases List.countP_pos_iff.mp (Nat.pos_of_ne_zero hne) with ⟨d, hd, hdp⟩
        have hdk := of_decide_eq_true hdp
        refine h.1 (List.mem_map.mpr ⟨d, hd, ?_⟩)
        unfold keyOf
        rw [hdk.1, hdk.2, ← hp.1, ← hp.2]
      rw [h0, if_pos (by simpa using hp)]
    · rw [if_neg (by simpa using hp)]
      have := ih h.2 k
      omega

theorem countP_ub_filter (l : List Candidate) (k : Int × Int) :
    l.countP (fun c => decide (c.placeholder_type = "underscore_blank" ∧
      c.x = k.1 ∧ c.y = k.2)) =
    (underscoreBlanksOf l).countP (fun c => decide (c.x = k.1 ∧ c.y = k.2)) := by
  unfold underscoreBlanksOf
  rw [List.countP_filter]
  refine List.countP_congr ?_
  intro c _
  constructor
  · intro h
    have h' := of_decide_eq_true h
    simp [h'.1, h'.2.1, h'.2.2]
  · intro h
    rcases (Bool.and_eq_true _ _).mp h with ⟨h1, h2⟩
    have h1' := of_decide_eq_true h1
    have h2' := of_decide_eq_true h2
    exact decide_eq_true ⟨h2', h1'.1, h1'.2⟩

theorem assignedTypeFor_nonflorida (tmpl : Option String)
    (hnf : tmplHas tmpl "florida" = false) (m : Nat) (b : Candidate) :
    assignedTypeFor tmpl m b =
      if m < expectedBlankCount tmpl then some ((blankPattern tmpl).getD m "") else none := by
  unfold assignedTypeFor expectedBlankCount
  rw [if_neg (by rw [hnf]; exact Bool.false_ne_true)]
  by_cases ha : tmplHas tmpl "alabama" = true
  · rw [if_pos ha, if_pos ha]
  · rw [if_neg ha, if_neg ha]

theorem blankAssignmentsFrom_mem_of_assigned (tmpl : Option String) :
    ∀ (l : List Candidate) (i j : Nat) (hj : j < l.length) (t : String),
      assignedTypeFor tmpl (i + j) (l.get ⟨j, hj⟩) = some t →
      (keyOf (l.get ⟨j, hj⟩), t) ∈ blankAssignmentsFrom tmpl i l := by
  intro l
  induction l with
  | nil => intro i j hj; exact absurd hj (by simp)
  | cons b rest ih =>
    intro i j hj t h
    cases j with
    | zero =>
      rw [Nat.add_zero] at h
      have h' : assignedTypeFor tmpl i b = some t := h
      show _ ∈ blankAssignmentsFrom tmpl i (b :: rest)
      unfold blankAssignmentsFrom
      rw [h']
      exact List.mem_cons_self _ _
    | succ j' =>
      have hj' : j' < rest.length := by simpa using Nat.lt_of_succ_lt_succ hj
      have h' : assignedTypeFor tmpl ((i + 1) + j') (rest.get ⟨j', hj'⟩) = some t := by
        have harith : i + (j' + 1) = (i + 1) + j' := by omega
        rw [← harith]
        exact h
      have hmem := ih (i + 1) j' hj' t h'
      show _ ∈ blankAssignmentsFrom tmpl i (b :: rest)
      unfold blankAssignmentsFrom
      cases hb : assignedTypeFor tmpl i b with
      | some t' => exact List.mem_cons_of_mem _ hmem
      | none => exact hmem

theorem lookupKey_eq_none (k : Int × Int) :
    ∀ assigns : List ((Int × Int) × String), (∀ a ∈ assigns, a.1 ≠ k) →
      lookupKey k assigns = none := by
  intro assigns
  induction assigns with
  | nil => intro _; rfl
  | cons a rest ih =>
    intro h
    show (if a.1 = k then some a.2 else lookupKey k rest) = none
    rw [if_neg (h a (List.mem_cons_self _ _)),
      ih (fun b hb => h b (List.mem_cons_of_mem _ hb))]

theorem lookupKey_eq_some (k : Int × Int) (t : String) :
    ∀ assigns : List ((Int × Int) × String),
      (∃ a ∈ assigns, a.1 = k) → (∀ a ∈ assigns, a.1 = k → a.2 = t) →
      lookupKey k assigns = some t := by
  intro assigns
  induction assigns with
  | nil =>
    intro hex _
    rcases hex with ⟨a, ha, _⟩
    cases ha
  | cons a rest ih =>
    intro hex hall
    show (if a.1 = k then some a.2 else lookupKey k rest) = some t
    by_cases hk : a.1 = k
    · rw [if_pos hk, hall a (List.mem_cons_self _ _) hk]
    · rw [if_neg hk]
      rcases hex with ⟨b, hb, hbk⟩
      rcases List.mem_cons.mp hb with rfl | hbrest
      · exact absurd hbk hk
      · exact ih ⟨b, hbrest, hbk⟩ (fun c hc hck => hall c (List.mem_cons_of_mem _ hc) hck)

/-- The fill dispatch has no `underscore_blank` branch: such a candidate
falls into the catch-all signature branch. -/
theorem fillCandidate_underscore (ws : List Token) (ctx : FillContext) (c : Candidate)
    (h : c.placeholder_type = "underscore_blank") :
    fillCandidate ws ctx c =
      FillAction.insertSignature
        (create_handwritten_signature ctx.signature_name ctx.signature_style) := by
  unfold fillCandidate
  rw [h]
  simp

/-- C2 amended: for the non-Florida templates (Georgia and the default
expect 3 date blanks, Alabama 5), the first N sorted blanks are assigned
the pattern's roles and every excess blank keeps the generic
`underscore_blank` kind — it is dropped from date classification.
However, the claim's final clause fails: the fill dispatch has no
`underscore_blank` branch, so at fill time the catch-all signature branch
inserts the signature text at every leftover blank (they do receive an
insertion). -/
theorem C2_excess_blanks_amended (tmpl : Option String) (pages : List (List Token))
    (hnf : tmplHas tmpl "florida" = false)
    (hnodup : ((sortedBlanksOf (scanDocument tmpl pages)).map keyOf).Nodup) :
    (∀ i (hi : i < (sortedBlanksOf (scanDocument tmpl pages)).length),
      expectedBlankCount tmpl ≤ i →
      (sortedBlanksOf (scanDocument tmpl pages)).get ⟨i, hi⟩ ∈
          extractPlaceholders tmpl pages ∧
      ((sortedBlanksOf (scanDocument tmpl pages)).get ⟨i, hi⟩).placeholder_type =
        "underscore_blank") ∧
    (∀ i (hi : i < (sortedBlanksOf (scanDocument tmpl pages)).length),
      i < expectedBlankCount tmpl →
      ({ (sortedBlanksOf (scanDocument tmpl pages)).get ⟨i, hi⟩ with
          placeholder_type := (blankPattern tmpl).getD i "" } : Candidate) ∈
        extractPlaceholders tmpl pages) ∧
    (∀ (c : Candidate) (ws : List Token) (ctx : FillContext),
      c.placeholder_type = "underscore_blank" →
      fillCandidate ws ctx c =
        FillAction.insertSignature
          (create_handwritten_signature ctx.signature_name ctx.signature_style)) := by
  have hperm : (sortedBlanksOf (scanDocument tmpl pages)).Perm
      (underscoreBlanksOf (scanDocument tmpl pages)) :=
    List.perm_insertionSort _ (underscoreBlanksOf (scanDocument tmpl pages))
  have hA : ∀ a ∈ blankAssignments tmpl (sortedBlanksOf (scanDocument tmpl pages)),
      (scanDocument tmpl pages).countP
        (fun c => decide (c.placeholder_type = "underscore_blank" ∧
          c.x = a.1.1 ∧ c.y = a.1.2)) ≤ 1 := by
    intro a _
    rw [countP_ub_filter]
    rw [← List.Perm.countP_eq _ hperm]
    exact countP_key_le_one _ hnodup a.1
  have hC : ∀ a ∈ blankAssignments tmpl (sortedBlanksOf (scanDocument tmpl pages)),
      a.2 ≠ "underscore_blank" := by
    intro a ha
    unfold blankAssignments at ha
    rcases blankAssignmentsFrom_spec tmpl _ 0 a ha with ⟨j, hj, _, htype⟩
    exact (assignedTypeFor_ne tmpl _ _ _ htype).2
  have hpost : (underscoreBlanksOf (scanDocument tmpl pages)).isEmpty = false →
      extractPlaceholders tmpl pages =
        (scanDocument tmpl pages).map
          (applyAssigns (blankAssignments tmpl (sortedBlanksOf (scanDocument tmpl pages)))) := by
    intro hne
    unfold extractPlaceholders postProcessBlanks
    rw [if_neg (by rw [hne]; exact Bool.false_ne_true)]
    exact foldAssign_eq_map _ _ hA hC
  have hne_of : ∀ i, i < (sortedBlanksOf (scanDocument tmpl pages)).length →
      (underscoreBlanksOf (scanDocument tmpl pages)).isEmpty = false := by
    intro i hi
    cases hb : (underscoreBlanksOf (scanDocument tmpl pages)).isEmpty
    · rfl
    · exfalso
      have hnil : underscoreBlanksOf (scanDocument tmpl pages) = [] := List.isEmpty_iff.mp hb
      have hlen := List.Perm.length_eq hperm
      rw [hnil] at hlen
      simp only [List.length_nil] at hlen
      omega
  have hinj : ∀ (i j : Nat) (hi : i < (sortedBlanksOf (scanDocument tmpl pages)).length)
      (hj : j < (sortedBlanksOf (scanDocument tmpl pages)).length),
      keyOf ((sortedBlanksOf (scanDocument tmpl pages)).get ⟨i, hi⟩) =
        keyOf ((sortedBlanksOf (scanDocument tmpl pages)).get ⟨j, hj⟩) → i = j := by
    intro i j hi hj heq
    have hi' : i < ((sortedBlanksOf (scanDocument tmpl pages)).map keyOf).length := by
      rw [List.length_map]; exact hi
    have hj' : j < ((sortedBlanksOf (scanDocument tmpl pages)).map keyOf).length := by
      rw [List.length_map]; exact hj
    have h1 := @List.get_map Candidate (Int × Int) keyOf
      (sortedBlanksOf (scanDocument tmpl pages)) ⟨i, hi'⟩
    have h2 := @List.get_map Candidate (Int × Int) keyOf
      (sortedBlanksOf (scanDocument tmpl pages)) ⟨j, hj'⟩
    have h3 := (List.Nodup.get_inj_iff hnodup).mp (h1.trans (heq.trans h2.symm))
    exact congrArg Fin.val h3
  have hentry : ∀ a ∈ blankAssignments tmpl (sortedBlanksOf (scanDocument tmpl pages)),
      ∃ j, ∃ hj : j < (sortedBlanksOf (scanDocument tmpl pages)).length,
        j < expectedBlankCount tmpl ∧
        a.1 = keyOf ((sortedBlanksOf (scanDocument tmpl pages)).get ⟨j, hj⟩) ∧
        a.2 = (blankPattern tmpl).getD j "" := by
    intro a ha
    unfold blankAssignments at ha
    rcases blankAssignmentsFrom_spec tmpl _ 0 a ha with ⟨j, hj, hkey, htype⟩
    rw [Nat.zero_add, assignedTypeFor_nonflorida tmpl hnf] at htype
    by_cases hjN : j < expectedBlankCount tmpl
    · rw [if_pos hjN] at htype
      exact ⟨j, hj, hjN, hkey, (Option.some.inj htype).symm⟩
    · rw [if_neg hjN] at htype
      cases htype
  have hub_of : ∀ i (hi : i < (sortedBlanksOf (scanDocument tmpl pages)).length),
      ((sortedBlanksOf (scanDocument tmpl pages)).get ⟨i, hi⟩).placeholder_type =
        "underscore_blank" ∧
      (sortedBlanksOf (scanDocument tmpl pages)).get ⟨i, hi⟩ ∈ scanDocument tmpl pages := by
    intro i hi
    have hmem : (sortedBlanksOf (scanDocument tmpl pages)).get ⟨i, hi⟩ ∈
        underscoreBlanksOf (scanDocument tmpl pages) :=
      (List.Perm.mem_iff hperm).mp (List.get_mem _ i hi)
    rcases List.mem_filter.mp hmem with ⟨hL, hdec⟩
    exact ⟨of_decide_eq_true hdec, hL⟩
  refine ⟨?_, ?_, ?_⟩
  · intro i hi hNi
    have hub := (hub_of i hi).1
    refine ⟨?_, hub⟩
    rw [hpost (hne_of i hi)]
    refine List.mem_map.mpr ⟨_, (hub_of i hi).2, ?_⟩
    have hnone : ∀ a ∈ blankAssignments tmpl (sortedBlanksOf (scanDocument tmpl pages)),
        a.1 ≠ keyOf ((sortedBlanksOf (scanDocument tmpl pages)).get ⟨i, hi⟩) := by
      intro a ha hkeq
      rcases hentry a ha with ⟨j, hj, hjN, hkey, _⟩
      have hji : j = i := hinj j i hj hi (by rw [← hkey]; exact hkeq)
      omega
    unfold applyAssigns
    rw [if_pos hub, lookupKey_eq_none _ _ hnone]
  · intro i hi hiN
    have hub := (hub_of i hi).1
    rw [hpost (hne_of i hi)]
    refine List.mem_map.mpr
      ⟨(sortedBlanksOf (scanDocument tmpl pages)).get ⟨i, hi⟩, (hub_of i hi).2, ?_⟩
    have hsome : lookupKey
        (keyOf ((sortedBlanksOf (scanDocument tmpl pages)).get ⟨i, hi⟩))
        (blankAssignments tmpl (sortedBlanksOf (scanDocument tmpl pages))) =
        some ((blankPattern tmpl).getD i "") := by
      refine lookupKey_eq_some _ _ _
        ⟨(keyOf ((sortedBlanksOf (scanDocument tmpl pages)).get ⟨i, hi⟩),
          (blankPattern tmpl).getD i ""), ?_, rfl⟩ ?_
      · unfold blankAssignments
        refine blankAssignmentsFrom_mem_of_assigned tmpl _ 0 i hi _ ?_
        rw [Nat.zero_add, assignedTypeFor_nonflorida tmpl hnf, if_pos hiN]
      · intro a ha hkeq
        rcases hentry a ha with ⟨j, hj, hjN, hkey, hval⟩
        have hji : j = i := hinj j i hj hi (by rw [← hkey]; exact hkeq)
        rw [hval, hji]
    unfold applyAssigns
    rw [if_pos hub, hsome]
  · intro c ws ctx h
    exact fillCandidate_underscore ws ctx c h

def c2Tok (y : Int) : Token :=
  { text := "____", x0 := 100, x1 := 120, top := y, bottom := y + 10, size := 12 }

def c2Pages : List (List Token) := [[c2Tok 100, c2Tok 200, c2Tok 300, c2Tok 400]]

def c2Ctx : FillContext :=
  { signature_name := "Jane Q. Public", day := 3, month := 3, year := 2024 }

def c2Default : Candidate :=
  { page := 0, text := "", x := 0, y := 0, width := 0, height := 0, font_size := 0,
    placeholder_type := "" }

/-- C2 counterexample: a Georgia-template page with four underscore-blank
tokens (one more than the template's three date blanks).  The classifier
assigns the first three and leaves the fourth with the generic
`underscore_blank` kind — but, contrary to the claim, the excess blank is
not free of insertions: the filler's catch-all branch inserts the
signature text "Jane Public" at it. -/
theorem C2_excess_blanks_counterexample :
    (underscoreBlanksOf (scanDocument (some "Georgia Template") c2Pages)).length = 4 ∧
    (extractPlaceholders (some "Georgia Template") c2Pages).get? 3 =
      some { page := 0, text := "____", x := 100, y := 400, width := 20, height := 10,
             font_size := 12, placeholder_type := "underscore_blank" } ∧
    fillCandidate [] c2Ctx
      { page := 0, text := "____", x := 100, y := 400, width := 20, height := 10,
        font_size := 12, placeholder_type := "underscore_blank" } =
      FillAction.insertSignature "Jane Public" := by
  decide

/-- C2 amended witness: the concrete four-blank Georgia page evaluated
through the amended theorem — the excess (fourth) blank survives
post-processing unchanged and receives the signature insertion. -/
theorem C2_excess_blanks_amended_witness :
    (sortedBlanksOf (scanDocument (some "Georgia Template") c2Pages)).getD 3 c2Default ∈
      extractPlaceholders (some "Georgia Template") c2Pages ∧
    fillCandidate [] c2Ctx
      ((sortedBlanksOf (scanDocument (some "Georgia Template") c2Pages)).getD 3 c2Default) =
      FillAction.insertSignature "Jane Public" := by
  have hlen : 3 < (sortedBlanksOf (scanDocument (some "Georgia Template") c2Pages)).length := by
    decide
  have h := C2_excess_blanks_amended (some "Georgia Template") c2Pages (by decide) (by decide)
  have h1 := h.1 3 hlen (by decide)
  have h3 := h.2.2 ((sortedBlanksOf (scanDocument (some "Georgia Template") c2Pages)).get
    ⟨3, hlen⟩) [] c2Ctx h1.2
  constructor
  · rw [List.getD_eq_get _ c2Default hlen]
    exact h1.1
  · rw [List.getD_eq_get _ c2Default hlen, h3]
    have hsig : create_handwritten_signature c2Ctx.signature_name c2Ctx.signature_style =
        "Jane Public" := by decide
    rw [hsig]
